import Mathlib

/-!
Verification of the msteams message-card library (msteams/__init__.py)
against its natural-language specification.

The development shallowly embeds the library's generic field-validated
object model: Python values flowing through the engine become the mutual
inductive type V (strings, booleans, integers, plain string-to-string
dicts used as conversion inputs, card objects, and lists), the per-kind
schema tables become association lists of field specifications, and the
stateful sharing of the input base-class schema table (Input._fields is
one class-level OrderedDict mutated in place by the derived input
constructors) is made explicit as a SchemaState value threaded through
the operations that read or mutate it.

All definitions are structurally recursive so that concrete instances
evaluate inside the kernel (by rfl or decide).
-/

namespace MSTeams

/-- The concrete card-object classes of msteams/__init__.py. -/
inductive Kind where
  | fact
  | imageObject
  | uriTarget
  | header
  | choice
  | input
  | textInput
  | dateInput
  | multipleChoiceInput
  | openUriAction
  | httpPostAction
  | actionCard
  | cardSection
  | messageCard
deriving DecidableEq, Repr

/-- Python class names, as produced by type(value).__name__ on card objects. -/
def Kind.pyName : Kind → String
  | .fact => "Fact"
  | .imageObject => "ImageObject"
  | .uriTarget => "UriTarget"
  | .header => "Header"
  | .choice => "Choice"
  | .input => "Input"
  | .textInput => "TextInput"
  | .dateInput => "DateInput"
  | .multipleChoiceInput => "MultipleChoiceInput"
  | .openUriAction => "OpenUriAction"
  | .httpPostAction => "HttpPostAction"
  | .actionCard => "ActionCard"
  | .cardSection => "CardSection"
  | .messageCard => "MessageCard"

/-- Expected types appearing as the expected_type component of a Field
specification in the source: the primitives str, bool and int, and the
card-object classes used as field element types.  The entries input and
action stand for the base classes Input and Action, whose isinstance
checks accept every derived input kind and every action kind. -/
inductive ExpType where
  | str
  | bool
  | int
  | fact
  | imageObject
  | uriTarget
  | header
  | choice
  | input
  | action
  | cardSection
deriving DecidableEq, Repr

mutual
/-- Python values handled by the engine: primitives, plain dicts of
strings (which only occur as inputs to the from_dict converters), card
objects (a class tag plus the _attrs insertion-ordered mapping), and
lists.  Tuples are identified with lists: _is_iter accepts both and the
code treats them identically. -/
inductive V where
  | vStr (s : String)
  | vBool (b : Bool)
  | vInt (n : Int)
  | vDict (entries : List (String × String))
  | vObj (kind : Kind) (attrs : Attrs)
  | vList (items : VList)
/-- A list of engine values (mutual with V so that all recursion stays
structural). -/
inductive VList where
  | nil
  | cons (v : V) (rest : VList)
/-- The _attrs mapping of a card object: an insertion-ordered association
list from field name to stored value, with Python dict semantics
(assignment updates an existing key in place, otherwise appends). -/
inductive Attrs where
  | nil
  | cons (key : String) (value : V) (rest : Attrs)
end

namespace VList

/-- Converts a Lean list of values into a VList. -/
def ofList : List V → VList
  | [] => .nil
  | v :: rest => .cons v (ofList rest)

/-- Appends two VLists. -/
def append : VList → VList → VList
  | .nil, w => w
  | .cons v rest, w => .cons v (append rest w)

/-- Number of elements of a VList. -/
def length : VList → Nat
  | .nil => 0
  | .cons _ rest => length rest + 1

/-- Checks whether every element satisfies the given predicate. -/
def all (p : V → Bool) : VList → Bool
  | .nil => true
  | .cons v rest => p v && all p rest

/-- Checks whether some element satisfies the given predicate. -/
def any (p : V → Bool) : VList → Bool
  | .nil => false
  | .cons v rest => p v || any p rest

theorem length_append (a b : VList) :
    (append a b).length = a.length + b.length := by
  match a with
  | .nil => simp [append, length]
  | .cons v rest => simp [append, length, length_append rest b]; omega

theorem all_append (p : V → Bool) (a b : VList) :
    all p (append a b) = (all p a && all p b) := by
  match a with
  | .nil => simp [append, all]
  | .cons v rest => simp [append, all, all_append p rest b, Bool.and_assoc]

end VList

namespace Attrs

/-- Dictionary lookup in an _attrs mapping (first matching key). -/
def get : Attrs → String → Option V
  | .nil, _ => none
  | .cons k v rest, key => if k = key then some v else get rest key

/-- Membership test, as Python's key in dict. -/
def has (a : Attrs) (key : String) : Bool :=
  (a.get key).isSome

/-- Dictionary assignment: replaces the value of an existing key in
place (keeping its position), otherwise appends the new binding at the
end.  This is the semantics of self._attrs[field] = value on a Python
dict. -/
def set : Attrs → String → V → Attrs
  | .nil, key, v => .cons key v .nil
  | .cons k w rest, key, v =>
    if k = key then .cons k v rest else .cons k w (set rest key v)

/-- The bindings of an _attrs mapping, as a Lean list. -/
def toList : Attrs → List (String × V)
  | .nil => []
  | .cons k v rest => (k, v) :: toList rest

theorem get_set_self (a : Attrs) (key : String) (v : V) :
    (a.set key v).get key = some v := by
  match a with
  | .nil => simp [set, get]
  | .cons k w rest =>
    by_cases h : k = key <;> simp [set, get, h, get_set_self rest key v]

theorem get_set_ne (a : Attrs) {key key' : String} (v : V) (h : key ≠ key') :
    (a.set key v).get key' = a.get key' := by
  match a with
  | .nil => simp [set, get, h]
  | .cons k w rest =>
    by_cases hk : k = key
    · subst hk; simp [set, get, h]
    · simp [set, hk, get]
      by_cases hk' : k = key' <;> simp [hk', get_set_ne rest v h]

end Attrs

/-- Python equality of two plain string dicts: same keys with equal
values, order-insensitive. -/
def dictEq (d e : List (String × String)) : Bool :=
  d.all (fun p => decide ((e.lookup p.1) = some p.2)) &&
  e.all (fun p => decide ((d.lookup p.1) = some p.2))

mutual
/-- Python equality (the == operator) on engine values.  On card objects
this is CardObject.__eq__ from the source: the two objects must have the
same concrete type, and every field set on the LEFT operand must be set
on the right operand with an equal value.  Fields set only on the right
operand are not examined, so this relation is not symmetric. -/
def veq : V → V → Bool
  | .vStr a, .vStr b => a == b
  | .vBool a, .vBool b => a == b
  | .vBool a, .vInt m => (if a then (1 : Int) else 0) == m
  | .vInt n, .vBool b => n == (if b then (1 : Int) else 0)
  | .vInt n, .vInt m => n == m
  | .vDict d, .vDict e => dictEq d e
  | .vObj k a, .vObj k' b => k == k' && aeq a b
  | .vList xs, .vList ys => leq xs ys
  | _, _ => false
/-- Python equality on lists: equal lengths and pairwise equal elements. -/
def leq : VList → VList → Bool
  | .nil, .nil => true
  | .cons x xs, .cons y ys => veq x y && leq xs ys
  | _, _ => false
/-- The field-by-field check of CardObject.__eq__: every binding of the
left _attrs mapping must be present in the right one with an equal
value. -/
def aeq : Attrs → Attrs → Bool
  | .nil, _ => true
  | .cons k v rest, other =>
    (match other.get k with
     | some w => veq v w
     | none => false) && aeq rest other
end

/-- The Field namedtuple of the source: expected type, whether the field
accepts an iterable of values, and an optional closed list of valid
values (checked with Python equality).  Defaults are (None, False, None);
the only schema entry with valid values is the style field of
MultipleChoiceInput. -/
structure FieldSpec where
  expectedType : ExpType
  allowIter : Bool := false
  validValues : Option (List V) := none

/-- A schema table: the _fields OrderedDict of a kind, as an ordered
association list from field name to field specification. -/
abbrev Schema := List (String × FieldSpec)

/-- Lookup of a field specification (first matching key). -/
def sget : Schema → String → Option FieldSpec
  | [], _ => none
  | (k, f) :: rest, key => if k = key then some f else sget rest key

/-- OrderedDict assignment on a schema table: updates an existing key in
place, otherwise appends (the semantics of self._fields[name] = spec). -/
def odSet : Schema → String → FieldSpec → Schema
  | [], key, f => [(key, f)]
  | (k, g) :: rest, key, f =>
    if k = key then (k, f) :: rest else (k, g) :: odSet rest key f

/-- OrderedDict.update on a schema table: assigns every binding of the
second table in order (the semantics of self._fields.update(sub_fields)). -/
def odUpdate (base : Schema) (sub : List (String × FieldSpec)) : Schema :=
  sub.foldl (fun acc p => odSet acc p.1 p.2) base

theorem sget_odSet_self (s : Schema) (key : String) (f : FieldSpec) :
    sget (odSet s key f) key = some f := by
  induction s with
  | nil => simp [odSet, sget]
  | cons p rest ih =>
    obtain ⟨k, g⟩ := p
    by_cases h : k = key <;> simp [odSet, sget, h, ih]

theorem sget_odSet_ne (s : Schema) {key key' : String} (f : FieldSpec)
    (h : key ≠ key') : sget (odSet s key f) key' = sget s key' := by
  induction s with
  | nil => simp [odSet, sget, h]
  | cons p rest ih =>
    obtain ⟨k, g⟩ := p
    by_cases hk : k = key
    · subst hk; simp [odSet, sget, h]
    · simp [odSet, hk, sget]
      by_cases hk' : k = key' <;> simp [hk', ih]

/-- The static schema of Fact: name and value, both strings. -/
def factFields : Schema :=
  [("name", ⟨.str, false, none⟩), ("value", ⟨.str, false, none⟩)]

/-- The static schema of ImageObject: image and title, both strings. -/
def imageObjectFields : Schema :=
  [("image", ⟨.str, false, none⟩), ("title", ⟨.str, false, none⟩)]

/-- The static schema of UriTarget: os and uri, both strings. -/
def uriTargetFields : Schema :=
  [("os", ⟨.str, false, none⟩), ("uri", ⟨.str, false, none⟩)]

/-- The static schema of Header: name and value, both strings. -/
def headerFields : Schema :=
  [("name", ⟨.str, false, none⟩), ("value", ⟨.str, false, none⟩)]

/-- The static schema of Choice: display and value, both strings. -/
def choiceFields : Schema :=
  [("display", ⟨.str, false, none⟩), ("value", ⟨.str, false, none⟩)]

/-- The static schema of OpenUriAction: a name string and a sequence of
UriTarget elements. -/
def openUriActionFields : Schema :=
  [("name", ⟨.str, false, none⟩), ("targets", ⟨.uriTarget, true, none⟩)]

/-- The static schema of HttpPostAction. -/
def httpPostActionFields : Schema :=
  [("name", ⟨.str, false, none⟩),
   ("target", ⟨.str, false, none⟩),
   ("headers", ⟨.header, true, none⟩),
   ("body", ⟨.str, false, none⟩),
   ("body_content_type", ⟨.str, false, none⟩)]

/-- The static schema of ActionCard: a name, a sequence of inputs and a
sequence of actions. -/
def actionCardFields : Schema :=
  [("name", ⟨.str, false, none⟩),
   ("inputs", ⟨.input, true, none⟩),
   ("actions", ⟨.action, true, none⟩)]

/-- The static schema of CardSection. -/
def cardSectionFields : Schema :=
  [("title", ⟨.str, false, none⟩),
   ("start_group", ⟨.bool, false, none⟩),
   ("activity_title", ⟨.str, false, none⟩),
   ("activity_subtitle", ⟨.str, false, none⟩),
   ("activity_image", ⟨.str, false, none⟩),
   ("activity_text", ⟨.str, false, none⟩),
   ("hero_image", ⟨.imageObject, false, none⟩),
   ("text", ⟨.str, false, none⟩),
   ("facts", ⟨.fact, true, none⟩),
   ("potential_action", ⟨.action, true, none⟩)]

/-- The static schema of MessageCard. -/
def messageCardFields : Schema :=
  [("summary", ⟨.str, false, none⟩),
   ("title", ⟨.str, false, none⟩),
   ("text", ⟨.str, false, none⟩),
   ("theme_color", ⟨.str, false, none⟩),
   ("sections", ⟨.cardSection, true, none⟩),
   ("potential_action", ⟨.action, true, none⟩)]

/-- The initial contents of the shared Input._fields table, as declared
on the Input base class. -/
def baseInputFields : Schema :=
  [("id", ⟨.str, false, none⟩),
   ("is_required", ⟨.bool, false, none⟩),
   ("title", ⟨.str, false, none⟩),
   ("value", ⟨.str, false, none⟩)]

/-- The process-wide mutable state of the schema tables.  The only
mutable table is Input._fields: TextInput, DateInput and
MultipleChoiceInput do not declare their own _fields attribute, so the
self._fields.update(...) and self._fields[...] = ... statements in their
constructors mutate the single class-level OrderedDict of Input, which
is shared by the base class and all three derived input kinds.  All
other schema tables are immutable class constants. -/
structure SchemaState where
  inputFields : Schema

/-- The schema state at process start, before any instance is created. -/
def initState : SchemaState := ⟨baseInputFields⟩

/-- The schema table consulted by instances of a kind, under the given
schema state.  The four input kinds all resolve self._fields to the one
shared table. -/
def fieldsOf (st : SchemaState) : Kind → Schema
  | .fact => factFields
  | .imageObject => imageObjectFields
  | .uriTarget => uriTargetFields
  | .header => headerFields
  | .choice => choiceFields
  | .input => st.inputFields
  | .textInput => st.inputFields
  | .dateInput => st.inputFields
  | .multipleChoiceInput => st.inputFields
  | .openUriAction => openUriActionFields
  | .httpPostAction => httpPostActionFields
  | .actionCard => actionCardFields
  | .cardSection => cardSectionFields
  | .messageCard => messageCardFields

/-- Python exception kinds raised by the engine.  The source raises the
built-in ValueError and TypeError; KeyError arises from reading an unset
field, and IndexError from converting an empty dict to an ImageObject.
There is no dedicated unknown-field exception class in the source. -/
inductive PyErr where
  | typeError (msg : String)
  | valueError (msg : String)
  | keyError (key : String)
  | indexError
deriving DecidableEq, Repr

/-- The name of a value's runtime type, as type(value).__name__ yields it
(used to look up a from_... converter). -/
def typeName : V → String
  | .vStr _ => "str"
  | .vBool _ => "bool"
  | .vInt _ => "int"
  | .vDict _ => "dict"
  | .vObj k _ => k.pyName
  | .vList _ => "list"

/-- The isinstance check of a value against an expected type.  Python
subtleties kept: bool is a subclass of int, so a boolean passes an int
check; the base classes Input and Action accept all of their derived
kinds. -/
def isInst : V → ExpType → Bool
  | .vStr _, .str => true
  | .vBool _, .bool => true
  | .vBool _, .int => true
  | .vInt _, .int => true
  | .vObj k _, .fact => k == .fact
  | .vObj k _, .imageObject => k == .imageObject
  | .vObj k _, .uriTarget => k == .uriTarget
  | .vObj k _, .header => k == .header
  | .vObj k _, .choice => k == .choice
  | .vObj k _, .cardSection => k == .cardSection
  | .vObj k _, .input =>
    k == .input || k == .textInput || k == .dateInput || k == .multipleChoiceInput
  | .vObj k _, .action =>
    k == .openUriAction || k == .httpPostAction || k == .actionCard
  | _, _ => false

/-- The _is_iter check of the source: only tuples and lists count (both
are modelled by V.vList). -/
def isIter : V → Bool
  | .vList _ => true
  | _ => false

/-- Whether the expected type's class defines a converter named
from_<typename>.  These are exactly the classmethods declared in the
source: ImageObject.from_dict/from_str, Fact.from_dict/from_OrderedDict,
UriTarget.from_dict/from_str, Header.from_dict, Choice.from_dict. -/
def hasConv : ExpType → String → Bool
  | .imageObject, "str" => true
  | .imageObject, "dict" => true
  | .fact, "dict" => true
  | .fact, "OrderedDict" => true
  | .uriTarget, "str" => true
  | .uriTarget, "dict" => true
  | .header, "dict" => true
  | .choice, "dict" => true
  | _, _ => false

/-- Builds the value of a freshly constructed two-string-field card
object (the net effect of the Fact, UriTarget, Header and Choice
constructors, which set their two fields in order). -/
def pairObj (k : Kind) (f1 : String) (v1 : String) (f2 : String) (v2 : String) : V :=
  .vObj k (.cons f1 (.vStr v1) (.cons f2 (.vStr v2) .nil))

/-- Applies the converter from_<typename> of the expected type to the
value.  Each equation is the net effect of the corresponding classmethod
in the source; the dict converters of Fact, UriTarget, Header and Choice
return a LIST of freshly constructed elements (one per key/value pair,
insertion order preserved), while ImageObject.from_dict uses only the
first pair (title, image) and raises IndexError on an empty dict, and
the from_str converters return a single element. -/
def applyConv : ExpType → V → Except PyErr V
  | .imageObject, .vStr s =>
    .ok (.vObj .imageObject (.cons "image" (.vStr s) .nil))
  | .imageObject, .vDict [] => .error .indexError
  | .imageObject, .vDict ((title, image) :: _) =>
    .ok (pairObj .imageObject "image" image "title" title)
  | .fact, .vDict d =>
    .ok (.vList (VList.ofList (d.map (fun p => pairObj .fact "name" p.1 "value" p.2))))
  | .uriTarget, .vStr s =>
    .ok (pairObj .uriTarget "os" "default" "uri" s)
  | .uriTarget, .vDict d =>
    .ok (.vList (VList.ofList (d.map (fun p => pairObj .uriTarget "os" p.1 "uri" p.2))))
  | .header, .vDict d =>
    .ok (.vList (VList.ofList (d.map (fun p => pairObj .header "name" p.1 "value" p.2))))
  | .choice, .vDict d =>
    .ok (.vList (VList.ofList (d.map (fun p => pairObj .choice "display" p.1 "value" p.2))))
  | _, v => .error (.typeError ("no converter for " ++ typeName v))

/-- CardObject._check_value.  Control flow follows the source line by
line: unknown field; the early-return branch for an iterable value on an
iterable-accepting field (element-wise isinstance check, and note that
this branch skips the valid-values check); the one-step conversion via
from_<typename> when the isinstance check fails; the valid-values
membership check (Python in, i.e. element == value); and the final
wrapping of a non-iterable value into a one-element list when the field
accepts iterables. -/
def checkValue (flds : Schema) (field : String) (value : V) : Except PyErr V :=
  match sget flds field with
  | none => .error (.valueError ("Unknown field " ++ field))
  | some spec =>
    match value, spec.allowIter with
    | .vList items, true =>
      if items.all (fun v => isInst v spec.expectedType) then
        .ok (.vList items)
      else
        .error (.typeError "Got iterable containing object of incorrect type")
    | v, _ =>
      let conv : Except PyErr V :=
        if isInst v spec.expectedType then .ok v
        else if hasConv spec.expectedType (typeName v) then
          applyConv spec.expectedType v
        else
          .error (.typeError ("Got argument of wrong type (" ++ typeName v ++ ")"))
      match conv with
      | .error e => .error e
      | .ok v' =>
        let checked : Except PyErr V :=
          match spec.validValues with
          | some vv =>
            if vv.any (fun x => veq x v') then .ok v'
            else .error (.valueError ("Got invalid value for " ++ field))
          | none => .ok v'
        match checked with
        | .error e => .error e
        | .ok v'' =>
          if !isIter v'' && spec.allowIter then
            .ok (.vList (.cons v'' .nil))
          else
            .ok v''

/-- A card-object instance: its concrete class and its _attrs mapping.
The reserved _payload entries (the type and context discriminators) are
a fixed function of the class, set once in the constructor and never
touched again, so they are recovered from the kind at render time. -/
structure Obj where
  kind : Kind
  attrs : Attrs

/-- The value view of an instance, for nesting it inside other values. -/
def Obj.toV (o : Obj) : V := .vObj o.kind o.attrs

/-- CardObject._set_field (also __setitem__): check the value and store
the sanitized result under the field name.  An exception leaves the
instance untouched, which the Except result models by producing no new
instance. -/
def setField (st : SchemaState) (o : Obj) (field : String) (value : V) :
    Except PyErr Obj :=
  match checkValue (fieldsOf st o.kind) field value with
  | .ok v => .ok ⟨o.kind, o.attrs.set field v⟩
  | .error e => .error e

/-- CardObject.__getitem__: return the stored field value, or raise
KeyError when the field was never set. -/
def getField (o : Obj) (field : String) : Except PyErr V :=
  match o.attrs.get field with
  | some v => .ok v
  | none => .error (.keyError field)

/-- CardObject.__init__: set every keyword argument in order on a fresh
or partially built instance. -/
def setFields (st : SchemaState) (o : Obj) : List (String × V) → Except PyErr Obj
  | [] => .ok o
  | (f, v) :: rest =>
    match setField st o f v with
    | .ok o' => setFields st o' rest
    | .error e => .error e

/-- Fact(name, value): create an empty instance and set the two fields. -/
def mkFact (st : SchemaState) (name value : V) : Except PyErr Obj := do
  let o ← setField st ⟨.fact, .nil⟩ "name" name
  setField st o "value" value

/-- UriTarget(os, uri). -/
def mkUriTarget (st : SchemaState) (os uri : V) : Except PyErr Obj := do
  let o ← setField st ⟨.uriTarget, .nil⟩ "os" os
  setField st o "uri" uri

/-- OpenUriAction(name, targets): the constructor records the OpenUri
discriminator in _payload (recovered from the kind at render time) and
sets the name and targets fields. -/
def mkOpenUriAction (st : SchemaState) (name targets : V) : Except PyErr Obj := do
  let o ← setField st ⟨.openUriAction, .nil⟩ "name" name
  setField st o "targets" targets

/-- HttpPostAction(name, target, **kwargs): keyword arguments first (via
CardObject.__init__), then the name and target fields. -/
def mkHttpPostAction (st : SchemaState) (name target : V)
    (kwargs : List (String × V)) : Except PyErr Obj := do
  let o ← setFields st ⟨.httpPostAction, .nil⟩ kwargs
  let o ← setField st o "name" name
  setField st o "target" target

/-- Input(**kwargs): the base input class has no constructor of its own
and no discriminator entry. -/
def mkInput (st : SchemaState) (kwargs : List (String × V)) : Except PyErr Obj :=
  setFields st ⟨.input, .nil⟩ kwargs

/-- The sub_fields table added by TextInput.__init__. -/
def textInputSubFields : List (String × FieldSpec) :=
  [("is_multiline", ⟨.bool, false, none⟩), ("max_length", ⟨.int, false, none⟩)]

/-- TextInput(**kwargs).  The constructor first executes
self._fields.update(sub_fields): since TextInput declares no _fields of
its own, this mutates the shared class-level table of Input.  Only then
are the keyword arguments set, against the updated table.  The mutation
happens even when a keyword argument later fails to validate. -/
def mkTextInput (st : SchemaState) (kwargs : List (String × V)) :
    SchemaState × Except PyErr Obj :=
  let st' : SchemaState := ⟨odUpdate st.inputFields textInputSubFields⟩
  (st', setFields st' ⟨.textInput, .nil⟩ kwargs)

/-- DateInput(**kwargs): executes self._fields["include_time"] = Field(bool),
again mutating the shared Input table, then sets the keyword arguments. -/
def mkDateInput (st : SchemaState) (kwargs : List (String × V)) :
    SchemaState × Except PyErr Obj :=
  let st' : SchemaState := ⟨odSet st.inputFields "include_time" ⟨.bool, false, none⟩⟩
  (st', setFields st' ⟨.dateInput, .nil⟩ kwargs)

/-- The sub_fields table added by MultipleChoiceInput.__init__, including
the closed valid-value set of the style field. -/
def multipleChoiceSubFields : List (String × FieldSpec) :=
  [("choices", ⟨.choice, true, none⟩),
   ("is_multi_select", ⟨.bool, false, none⟩),
   ("style", ⟨.str, false, some [.vStr "normal", .vStr "expanded"]⟩)]

/-- MultipleChoiceInput(**kwargs): updates the shared Input table with
its sub_fields, then sets the keyword arguments against it. -/
def mkMultipleChoiceInput (st : SchemaState) (kwargs : List (String × V)) :
    SchemaState × Except PyErr Obj :=
  let st' : SchemaState := ⟨odUpdate st.inputFields multipleChoiceSubFields⟩
  (st', setFields st' ⟨.multipleChoiceInput, .nil⟩ kwargs)

/-- ActionCard(**kwargs). -/
def mkActionCard (st : SchemaState) (kwargs : List (String × V)) : Except PyErr Obj :=
  setFields st ⟨.actionCard, .nil⟩ kwargs

/-- MessageCard(summary="Summary", **kwargs): keyword arguments are set
first by CardObject.__init__, the discriminator and context entries are
recorded in _payload, and set_summary(summary) runs last (so the summary
parameter, defaulting to "Summary", overrides any summary keyword). -/
def mkMessageCard (st : SchemaState) (kwargs : List (String × V))
    (summary : V := .vStr "Summary") : Except PyErr Obj := do
  let o ← setFields st ⟨.messageCard, .nil⟩ kwargs
  setField st o "summary" summary

/-- Extracts the os entry of a stored target element, as target["os"]
does.  On a value that is not a card object with an os field the Python
expression would raise; such values never occur in a stored target list,
and the total model returns none there. -/
def targetOs : V → Option V
  | .vObj _ a => a.get "os"
  | _ => none

/-- Whether the given platform identifier already occurs among the
stored targets (the os in os_list test, using Python equality). -/
def osListContains (ts : VList) (os : V) : Bool :=
  ts.any (fun t =>
    match targetOs t with
    | some tos => veq tos os
    | none => false)

/-- OpenUriAction.add_target(os, uri): read the stored target list,
collect the os entries, raise ValueError when the platform is already
present, otherwise construct UriTarget(os, uri) and append it to the
stored list (the source appends to the list object in place; storing the
extended list back is observationally the same). -/
def addTarget (st : SchemaState) (o : Obj) (os uri : V) : Except PyErr Obj :=
  match o.attrs.get "targets" with
  | some (.vList ts) =>
    if osListContains ts os then
      .error (.valueError "Target already set")
    else do
      let t ← mkUriTarget st os uri
      .ok ⟨o.kind, o.attrs.set "targets" (.vList (ts.append (.cons t.toV .nil)))⟩
  | _ => .error (.typeError "targets is not set or not a list")

/-- ActionCard.add_inputs(inputs): the docstring promises an append, and
the method does build input_list = old elements extended with the checked
new ones, but it then stores only the checked new inputs, discarding the
previously stored elements.  The dead extended list is omitted here; the
final _set_field call (which re-checks the already-checked value) is kept. -/
def addInputs (st : SchemaState) (o : Obj) (inputs : V) : Except PyErr Obj := do
  let inputs' ← checkValue (fieldsOf st o.kind) "inputs" inputs
  setField st o "inputs" inputs'

/-- ActionCard.add_actions(actions): same shape, and the same discarding
store, as add_inputs. -/
def addActions (st : SchemaState) (o : Obj) (actions : V) : Except PyErr Obj := do
  let actions' ← checkValue (fieldsOf st o.kind) "actions" actions
  setField st o "actions" actions'

/-- Splitting a character list at every underscore, the semantics of
Python's str.split("_"): adjacent separators and separators at either
end produce empty words, and the empty string splits to one empty word. -/
def splitOnUnderscore : List Char → List (List Char)
  | [] => [[]]
  | c :: rest =>
    if c = '_' then [] :: splitOnUnderscore rest
    else
      match splitOnUnderscore rest with
      | [] => [[c]]
      | w :: ws => (c :: w) :: ws

/-- The character-level state machine of Python's str.title() restricted
to ASCII: a letter following a non-letter is uppercased, a letter
following a letter is lowercased, every other character passes through
and resets the state.  The boolean argument records whether the previous
character was a letter (a cased character). -/
def pyTitleAux : Bool → List Char → List Char
  | _, [] => []
  | prevCased, c :: cs =>
    if c.isAlpha then
      (if prevCased then c.toLower else c.toUpper) :: pyTitleAux true cs
    else
      c :: pyTitleAux false cs

/-- Python's str.title() on a word, as used on the tail words of a field
name (ASCII only; the schema field names are ASCII). -/
def pyTitle (w : List Char) : List Char := pyTitleAux false w

/-- The _snake_to_dromedary_case transform: split on underscores; when
there is more than one word, replace every word after the first by its
title-cased form; join with no separator. -/
def snakeToDromedary (s : String) : String :=
  match splitOnUnderscore s.data with
  | [] => ""
  | w :: ws =>
    if ws.isEmpty then String.mk w
    else String.mk (w ++ (ws.map pyTitle).flatten)

mutual
/-- The ordered generic structure produced by get_payload(fmt="python"):
JSON-serializable strings, booleans, integers, ordered objects and
arrays. -/
inductive J where
  | js (s : String)
  | jb (b : Bool)
  | ji (n : Int)
  | jo (entries : JEntries)
  | ja (items : JItems)
/-- The ordered key/value entries of a rendered object. -/
inductive JEntries where
  | nil
  | cons (key : String) (value : J) (rest : JEntries)
/-- The items of a rendered array. -/
inductive JItems where
  | nil
  | cons (value : J) (rest : JItems)
end

namespace JEntries

/-- Builds entries from a Lean list of pairs. -/
def ofList : List (String × J) → JEntries
  | [] => .nil
  | (k, v) :: rest => .cons k v (ofList rest)

/-- Dictionary assignment on rendered entries (payload[key] = value):
updates an existing key in place, otherwise appends. -/
def set : JEntries → String → J → JEntries
  | .nil, key, v => .cons key v .nil
  | .cons k w rest, key, v =>
    if k = key then .cons k v rest else .cons k w (set rest key v)

/-- The keys of the entries, in order. -/
def keys : JEntries → List String
  | .nil => []
  | .cons k _ rest => k :: keys rest

/-- Concatenation of entry lists. -/
def append : JEntries → JEntries → JEntries
  | .nil, e => e
  | .cons k v rest, e => .cons k v (append rest e)

end JEntries

/-- Association lookup in a list of pre-rendered attribute values. -/
def jget : List (String × J) → String → Option J
  | [], _ => none
  | (k, v) :: rest, key => if k = key then some v else jget rest key

/-- The reserved _payload entries of each kind: the discriminator tag
assigned by the concrete constructors, plus the context marker of the
root card.  Plain data kinds and the base Input class assign none. -/
def reservedEntries : Kind → List (String × String)
  | .openUriAction => [("@type", "OpenUri")]
  | .httpPostAction => [("@type", "HttpPOST")]
  | .textInput => [("@type", "TextInput")]
  | .dateInput => [("@type", "DateInput")]
  | .multipleChoiceInput => [("@type", "MultipleChoiceInput")]
  | .actionCard => [("@type", "ActionCard")]
  | .messageCard =>
    [("@type", "MessageCard"), ("@context", "https://schema.org/extensions")]
  | _ => []

/-- The field loop of get_payload: walk the schema table in declaration
order and, for every field present in _attrs, assign its rendered value
under the dromedary-cased key.  The attribute values are pre-rendered
(renderAttrs below); looking a name up among the pre-rendered values
equals rendering the looked-up stored value, see jget_renderAttrs. -/
def renderFields : Schema → List (String × J) → JEntries → JEntries
  | [], _, payload => payload
  | (name, _) :: rest, rattrs, payload =>
    match jget rattrs name with
    | some jv => renderFields rest rattrs (payload.set (snakeToDromedary name) jv)
    | none => renderFields rest rattrs payload

mutual
/-- get_payload(fmt="python") as a function of values.  A primitive is
emitted raw; a nested card object contributes its own payload, computed
against the same schema state; a list contributes the payloads of its
elements (the source assumes list elements are card objects; primitives
in lists, which no schema stores, are emitted raw here).  A raw dict,
which the engine never stores, would be serialized as-is. -/
def renderV (st : SchemaState) : V → J
  | .vStr s => .js s
  | .vBool b => .jb b
  | .vInt n => .ji n
  | .vDict d => .jo (JEntries.ofList (d.map (fun p => (p.1, J.js p.2))))
  | .vObj k attrs =>
    .jo (renderFields (fieldsOf st k) (renderAttrs st attrs)
      (JEntries.ofList ((reservedEntries k).map (fun p => (p.1, J.js p.2)))))
  | .vList items => .ja (renderItems st items)
/-- Pre-renders every stored attribute value. -/
def renderAttrs (st : SchemaState) : Attrs → List (String × J)
  | .nil => []
  | .cons k v rest => (k, renderV st v) :: renderAttrs st rest
/-- Renders the elements of a stored list. -/
def renderItems (st : SchemaState) : VList → JItems
  | .nil => .nil
  | .cons v rest => .cons (renderV st v) (renderItems st rest)
end

/-- get_payload(fmt="python") of an instance. -/
def getPayloadPython (st : SchemaState) (o : Obj) : J :=
  renderV st o.toV

/-- Hexadecimal digit characters (lowercase, as json.dumps emits them). -/
def hexDigitChar : Nat → Char
  | 0 => '0' | 1 => '1' | 2 => '2' | 3 => '3' | 4 => '4'
  | 5 => '5' | 6 => '6' | 7 => '7' | 8 => '8' | 9 => '9'
  | 10 => 'a' | 11 => 'b' | 12 => 'c' | 13 => 'd' | 14 => 'e' | 15 => 'f'
  | _ => '?'

/-- Decimal digits of a natural number, most significant first.  The
fuel argument (any bound of at least one more than the number of digits)
keeps the recursion structural so that concrete values reduce in the
kernel. -/
def natToDigits : Nat → Nat → List Char
  | 0, _ => []
  | fuel + 1, n =>
    if n < 10 then [hexDigitChar n]
    else natToDigits fuel (n / 10) ++ [hexDigitChar (n % 10)]

/-- Decimal rendering of a natural number, as Python str(). -/
def natRepr (n : Nat) : String := String.mk (natToDigits (n + 1) n)

/-- Decimal rendering of an integer, as Python str(). -/
def intRepr : Int → String
  | .ofNat n => natRepr n
  | .negSucc n => "-" ++ natRepr (n + 1)

/-- A run of spaces, for the indented serialization mode. -/
def spaces (k : Nat) : String := String.mk (List.replicate k ' ')

/-- One four-digit escape unit of json.dumps(ensure_ascii=True). -/
def uEscapeLow (n : Nat) : List Char :=
  ['\\', 'u', hexDigitChar (n / 4096 % 16), hexDigitChar (n / 256 % 16),
   hexDigitChar (n / 16 % 16), hexDigitChar (n % 16)]

/-- A four-digit unicode escape, with a surrogate pair above the basic
plane, as json.dumps(ensure_ascii=True) emits. -/
def uEscape (n : Nat) : List Char :=
  if n < 65536 then uEscapeLow n
  else
    uEscapeLow (55296 + (n - 65536) / 1024) ++ uEscapeLow (56320 + (n - 65536) % 1024)

/-- The escape of one character inside a JSON string literal, following
json.dumps with its default ensure_ascii=True: the two-character escapes
for quote, backslash and the named control characters, unicode escapes
for the remaining control characters and all non-ASCII characters, and
every other character unchanged. -/
def escChar (c : Char) : List Char :=
  if c = '"' then ['\\', '"']
  else if c = '\\' then ['\\', '\\']
  else if c = '\n' then ['\\', 'n']
  else if c = '\t' then ['\\', 't']
  else if c = '\r' then ['\\', 'r']
  else if c = Char.ofNat 8 then ['\\', 'b']
  else if c = Char.ofNat 12 then ['\\', 'f']
  else if c.toNat < 32 || c.toNat ≥ 127 then uEscape c.toNat
  else [c]

/-- Escapes every character of a string body. -/
def escList : List Char → List Char
  | [] => []
  | c :: cs => escChar c ++ escList cs

/-- A JSON string literal: quote, escaped body, quote. -/
def escString (s : String) : String :=
  String.mk ('"' :: (escList s.data ++ ['"']))

mutual
/-- json.dumps with the compact separators of the source,
separators=(", ", ": ") — a single space after every colon and after
every comma, everything on one line. -/
def dumpsC : J → String
  | .js s => escString s
  | .jb true => "true"
  | .jb false => "false"
  | .ji n => intRepr n
  | .jo .nil => "\x7b\x7d"
  | .jo (.cons k v rest) => "\x7b" ++ dumpsEntriesC (.cons k v rest) ++ "\x7d"
  | .ja .nil => "[]"
  | .ja (.cons v rest) => "[" ++ dumpsItemsC (.cons v rest) ++ "]"
/-- Object entries in compact mode, joined by comma-space. -/
def dumpsEntriesC : JEntries → String
  | .nil => ""
  | .cons k v .nil => escString k ++ ": " ++ dumpsC v
  | .cons k v (.cons k' v' rest) =>
    escString k ++ ": " ++ dumpsC v ++ ", " ++ dumpsEntriesC (.cons k' v' rest)
/-- Array items in compact mode, joined by comma-space. -/
def dumpsItemsC : JItems → String
  | .nil => ""
  | .cons v .nil => dumpsC v
  | .cons v (.cons v' rest) => dumpsC v ++ ", " ++ dumpsItemsC (.cons v' rest)
end

mutual
/-- json.dumps with an indentation width n and separators=(",", ": "),
as the source requests in indented mode: standard multi-line pretty
printing with no space after commas, carrying the current depth. -/
def dumpsI (n : Nat) : Nat → J → String
  | _, .js s => escString s
  | _, .jb true => "true"
  | _, .jb false => "false"
  | _, .ji m => intRepr m
  | _, .jo .nil => "\x7b\x7d"
  | d, .jo (.cons k v rest) =>
    "\x7b\n" ++ spaces (n * (d + 1)) ++ dumpsEntriesI n (d + 1) (.cons k v rest) ++
    "\n" ++ spaces (n * d) ++ "\x7d"
  | _, .ja .nil => "[]"
  | d, .ja (.cons v rest) =>
    "[\n" ++ spaces (n * (d + 1)) ++ dumpsItemsI n (d + 1) (.cons v rest) ++
    "\n" ++ spaces (n * d) ++ "]"
/-- Object entries in indented mode, joined by comma, newline and
indentation. -/
def dumpsEntriesI (n : Nat) : Nat → JEntries → String
  | _, .nil => ""
  | d, .cons k v .nil => escString k ++ ": " ++ dumpsI n d v
  | d, .cons k v (.cons k' v' rest) =>
    escString k ++ ": " ++ dumpsI n d v ++ ",\n" ++ spaces (n * d) ++
    dumpsEntriesI n d (.cons k' v' rest)
/-- Array items in indented mode. -/
def dumpsItemsI (n : Nat) : Nat → JItems → String
  | _, .nil => ""
  | d, .cons v .nil => dumpsI n d v
  | d, .cons v (.cons v' rest) =>
    dumpsI n d v ++ ",\n" ++ spaces (n * d) ++ dumpsItemsI n d (.cons v' rest)
end

mutual
/-- The canonical whitespace-free serialization of a rendered structure:
the same token sequence as either dumps mode with every inter-token
space and newline removed. -/
def minifyJ : J → String
  | .js s => escString s
  | .jb true => "true"
  | .jb false => "false"
  | .ji n => intRepr n
  | .jo .nil => "\x7b\x7d"
  | .jo (.cons k v rest) => "\x7b" ++ minifyEntries (.cons k v rest) ++ "\x7d"
  | .ja .nil => "[]"
  | .ja (.cons v rest) => "[" ++ minifyItems (.cons v rest) ++ "]"
/-- Entries of the whitespace-free form. -/
def minifyEntries : JEntries → String
  | .nil => ""
  | .cons k v .nil => escString k ++ ":" ++ minifyJ v
  | .cons k v (.cons k' v' rest) =>
    escString k ++ ":" ++ minifyJ v ++ "," ++ minifyEntries (.cons k' v' rest)
/-- Items of the whitespace-free form. -/
def minifyItems : JItems → String
  | .nil => ""
  | .cons v .nil => minifyJ v
  | .cons v (.cons v' rest) => minifyJ v ++ "," ++ minifyItems (.cons v' rest)
end

/-- get_payload(fmt="json", indent): the compact separators when no
indentation is requested, the indented mode otherwise. -/
def getPayloadJson (st : SchemaState) (o : Obj) (indent : Option Nat) : String :=
  match indent with
  | none => dumpsC (getPayloadPython st o)
  | some n => dumpsI n 0 (getPayloadPython st o)

/-- One step of the whitespace stripper: given whether the scan is
inside a string literal and whether the previous character was an
unconsumed backslash, emit the characters the current character
contributes and the next state.  Outside string literals spaces and
newlines are dropped; inside them every character is kept. -/
def stripStep : Bool × Bool → Char → List Char × (Bool × Bool)
  | (true, true), c => ([c], (true, false))
  | (true, false), c =>
    if c = '\\' then ([c], (true, true))
    else if c = '"' then ([c], (false, false))
    else ([c], (true, false))
  | (false, _), c =>
    if c = '"' then ([c], (true, false))
    else if c = ' ' || c = '\n' then ([], (false, false))
    else ([c], (false, false))

/-- Runs the whitespace stripper over a character list, returning the
kept characters and the final state. -/
def stripRun (s : Bool × Bool) : List Char → List Char × (Bool × Bool)
  | [] => ([], s)
  | c :: cs =>
    let (out, s') := stripStep s c
    let (rest, s'') := stripRun s' cs
    (out ++ rest, s'')

/-- Removes every space and newline that occurs outside of string
literals (string-literal content, where whitespace is significant, is
kept verbatim). -/
def stripWS (s : String) : String :=
  String.mk (stripRun (false, false) s.data).1

/-- Modelled from the spec: capitalizing a word at its first letter,
leaving every other character unchanged (the naming transform described
in the specification for the words after the first). -/
def specCapitalize : List Char → List Char
  | [] => []
  | c :: cs => c.toUpper :: cs

/-- Modelled from the spec: the naming transform on an already split
word list — the first word unchanged, every subsequent word capitalized
at its first letter, concatenated with no separator. -/
def specDromedaryWords : List (List Char) → List Char
  | [] => []
  | w :: ws => w ++ (ws.map specCapitalize).flatten

/-- The lowercase ASCII alphabet, the character universe of snake_case
field-name words. -/
def lowerAlphabet : List Char :=
  ['a', 'b', 'c', 'd', 'e', 'f', 'g', 'h', 'i', 'j', 'k', 'l', 'm',
   'n', 'o', 'p', 'q', 'r', 's', 't', 'u', 'v', 'w', 'x', 'y', 'z']

theorem lower_char_facts {c : Char} (h : c ∈ lowerAlphabet) :
    c.isAlpha = true ∧ c.toLower = c ∧ c ≠ '_' := by
  fin_cases h <;> exact ⟨rfl, rfl, by decide⟩

theorem pyTitleAux_true_of_lower {w : List Char}
    (h : ∀ c ∈ w, c ∈ lowerAlphabet) : pyTitleAux true w = w := by
  induction w with
  | nil => rfl
  | cons c cs ih =>
    obtain ⟨halpha, hlower, -⟩ := lower_char_facts (h c (by simp))
    simp [pyTitleAux, halpha, hlower, ih (fun x hx => h x (by simp [hx]))]

theorem pyTitle_eq_specCapitalize {w : List Char}
    (h : ∀ c ∈ w, c ∈ lowerAlphabet) : pyTitle w = specCapitalize w := by
  cases w with
  | nil => rfl
  | cons c cs =>
    obtain ⟨halpha, -, -⟩ := lower_char_facts (h c (by simp))
    have hrest : pyTitleAux true cs = cs :=
      pyTitleAux_true_of_lower (fun x hx => h x (by simp [hx]))
    simp [pyTitle, pyTitleAux, specCapitalize, halpha, hrest]

theorem splitOnUnderscore_ne_nil (cs : List Char) : splitOnUnderscore cs ≠ [] := by
  cases cs with
  | nil => simp [splitOnUnderscore]
  | cons c rest =>
    by_cases h : c = '_'
    · simp [splitOnUnderscore, h]
    · simp only [splitOnUnderscore, if_neg h]
      cases hsplit : splitOnUnderscore rest <;> simp

theorem splitOnUnderscore_no_sep {cs : List Char} (h : '_' ∉ cs) :
    splitOnUnderscore cs = [cs] := by
  induction cs with
  | nil => rfl
  | cons c rest ih =>
    have hc : c ≠ '_' := fun hc => h (by simp [hc])
    have hrest : '_' ∉ rest := fun hr => h (by simp [hr])
    simp [splitOnUnderscore, hc, ih hrest]

/-- C3: the field-name-to-key transform keeps the first word of a
snake_case name unchanged, capitalizes every subsequent word at its
first letter (leaving the rest of the word intact, which for lowercase
words coincides with Python's str.title), and concatenates with no
separator; it is the identity on names containing no separator; and it
maps theme_color to themeColor, body_content_type to bodyContentType and
start_group to startGroup. -/
theorem c3_naming_transform :
    (∀ s : String,
      (∀ w ∈ splitOnUnderscore s.data, ∀ c ∈ w, c ∈ lowerAlphabet) →
      snakeToDromedary s = String.mk (specDromedaryWords (splitOnUnderscore s.data)))
    ∧ (∀ s : String, '_' ∉ s.data → snakeToDromedary s = s)
    ∧ snakeToDromedary "theme_color" = "themeColor"
    ∧ snakeToDromedary "body_content_type" = "bodyContentType"
    ∧ snakeToDromedary "start_group" = "startGroup" := by
  refine ⟨?_, ?_, rfl, rfl, rfl⟩
  · intro s h
    cases hsplit : splitOnUnderscore s.data with
    | nil => exact absurd hsplit (splitOnUnderscore_ne_nil _)
    | cons w ws =>
      rw [hsplit] at h
      cases ws with
      | nil => simp [snakeToDromedary, hsplit, specDromedaryWords]
      | cons w' ws' =>
        have hmap : (w' :: ws').map pyTitle = (w' :: ws').map specCapitalize := by
          apply List.map_congr_left
          intro x hx
          exact pyTitle_eq_specCapitalize (h x (by simp [hx]))
        simp [snakeToDromedary, hsplit, specDromedaryWords, hmap]
  · intro s h
    simp [snakeToDromedary, splitOnUnderscore_no_sep h]

/-- Witness for C3 at concrete inputs: the general transform equation at
theme_color and the identity at the single-word name summary. -/
theorem c3_naming_transform_witness :
    snakeToDromedary "theme_color" =
      String.mk (specDromedaryWords (splitOnUnderscore "theme_color".data))
    ∧ snakeToDromedary "summary" = "summary" :=
  ⟨c3_naming_transform.1 "theme_color" (by decide),
   c3_naming_transform.2.1 "summary" (by decide)⟩

/-- C5 counterexample: setting an unknown field raises the plain built-in
ValueError (with an Unknown field message), not a distinct unknown-field
exception kind — it is the same exception kind the engine uses for
allowed-value violations, as the style failure shows.  The source has no
UnknownFieldError class. -/
theorem c5_counterexample :
    setField initState ⟨.fact, .nil⟩ "bogus" (.vStr "x") =
      .error (.valueError "Unknown field bogus")
    ∧ (mkMultipleChoiceInput initState [("style", .vStr "invalid")]).2 =
      .error (.valueError "Got invalid value for style") :=
  ⟨rfl, rfl⟩

/-- C5 amended: for every kind and every name that is not a field of the
schema the instance consults, setting that name fails with ValueError
(message Unknown field followed by the name) for every value, leaving the
stored fields unchanged (the model returns no new instance on error, and
the source raises before any mutation). -/
theorem c5_unknown_field_value_error (st : SchemaState) (o : Obj)
    (f : String) (v : V) (h : sget (fieldsOf st o.kind) f = none) :
    setField st o f v = .error (.valueError ("Unknown field " ++ f)) := by
  simp [setField, checkValue, h]

/-- Witness for C5 at a concrete input: the field sections is not in the
Fact schema, and setting it fails with the unknown-field ValueError. -/
theorem c5_unknown_field_value_error_witness :
    setField initState ⟨.fact, .nil⟩ "sections" (.vBool true) =
      .error (.valueError "Unknown field sections") :=
  c5_unknown_field_value_error initState ⟨.fact, .nil⟩ "sections" (.vBool true) rfl

/-- C6 counterexample: constructing a TextInput mutates the schema table
shared by all input kinds.  Before any construction a DateInput instance
rejects is_multiline as unknown; after TextInput() has run (even with no
keyword arguments), the shared table contains is_multiline, the base
Input kind and the sibling DateInput kind both accept it, and a DateInput
instance can successfully store it. -/
theorem c6_counterexample :
    sget (fieldsOf initState .dateInput) "is_multiline" = none
    ∧ sget (fieldsOf (mkTextInput initState []).1 .dateInput) "is_multiline" =
        some ⟨.bool, false, none⟩
    ∧ sget (fieldsOf (mkTextInput initState []).1 .input) "is_multiline" =
        some ⟨.bool, false, none⟩
    ∧ setField (mkTextInput initState []).1 ⟨.dateInput, .nil⟩ "is_multiline"
        (.vBool true) =
        .ok ⟨.dateInput, .cons "is_multiline" (.vBool true) .nil⟩
    ∧ setField initState ⟨.dateInput, .nil⟩ "is_multiline" (.vBool true) =
        .error (.valueError "Unknown field is_multiline") :=
  ⟨rfl, rfl, rfl, rfl, rfl⟩

/-- C6 amended: the schema tables of the non-input kinds are static
process-wide constants, independent of the schema state; the four input
kinds however share one mutable table, and constructing a TextInput
(whatever its keyword arguments, and before they are even validated)
adds is_multiline and max_length to the table consulted by the base
Input kind and the sibling DateInput and MultipleChoiceInput kinds. -/
theorem c6_schema_table_sharing (st : SchemaState) (kwargs : List (String × V)) :
    (∀ st' : SchemaState, ∀ k : Kind,
      k ≠ .input → k ≠ .textInput → k ≠ .dateInput → k ≠ .multipleChoiceInput →
      fieldsOf st k = fieldsOf st' k)
    ∧ sget (fieldsOf (mkTextInput st kwargs).1 .dateInput) "is_multiline" =
        some ⟨.bool, false, none⟩
    ∧ sget (fieldsOf (mkTextInput st kwargs).1 .dateInput) "max_length" =
        some ⟨.int, false, none⟩
    ∧ fieldsOf (mkTextInput st kwargs).1 .input =
        fieldsOf (mkTextInput st kwargs).1 .textInput
    ∧ fieldsOf (mkTextInput st kwargs).1 .dateInput =
        fieldsOf (mkTextInput st kwargs).1 .multipleChoiceInput := by
  refine ⟨?_, ?_, ?_, rfl, rfl⟩
  · intro st' k h1 h2 h3 h4
    cases k <;>
      first
      | rfl
      | exact absurd rfl h1
      | exact absurd rfl h2
      | exact absurd rfl h3
      | exact absurd rfl h4
  · show sget (odUpdate st.inputFields textInputSubFields) "is_multiline" = _
    simp only [odUpdate, textInputSubFields, List.foldl]
    rw [sget_odSet_ne _ _ (by decide), sget_odSet_self]
  · show sget (odUpdate st.inputFields textInputSubFields) "max_length" = _
    simp only [odUpdate, textInputSubFields, List.foldl]
    rw [sget_odSet_self]

/-- Witness for C6 amended at concrete inputs: instantiated at the
initial schema state with no keyword arguments, giving the static-kind
equation at Fact and the concrete shared-table facts. -/
theorem c6_schema_table_sharing_witness :
    fieldsOf initState .fact = fieldsOf ⟨[]⟩ .fact
    ∧ sget (fieldsOf (mkTextInput initState []).1 .dateInput) "is_multiline" =
        some ⟨.bool, false, none⟩ :=
  ⟨(c6_schema_table_sharing initState []).1 ⟨[]⟩ .fact
      (by decide) (by decide) (by decide) (by decide),
   (c6_schema_table_sharing initState []).2.1⟩

theorem aeq_iff (a b : Attrs) :
    aeq a b = true ↔
      ∀ p ∈ a.toList, ∃ w, b.get p.1 = some w ∧ veq p.2 w = true := by
  match a with
  | .nil => simp [aeq, Attrs.toList]
  | .cons k v rest =>
    have ih := aeq_iff rest b
    cases hw : b.get k with
    | none =>
      simp only [aeq, hw, Attrs.toList, List.forall_mem_cons]
      simp [hw]
    | some w =>
      simp only [aeq, hw, Attrs.toList, List.forall_mem_cons, Bool.and_eq_true, ih]
      simp [hw]

/-- C4 counterexample: CardObject.__eq__ only checks that the fields set
on the left operand are set on the right with equal values, so for a
MessageCard a (only summary set, exactly as MessageCard() builds it) and
b (summary plus title, as built by a subsequent title assignment),
equals(a, b) is true even though title is set on b and not on a — where
the claim requires both directions to be false.  equals(b, a) is false,
exhibiting the asymmetry. -/
theorem c4_counterexample :
    veq (.vObj .messageCard (.cons "summary" (.vStr "Summary") .nil))
        (.vObj .messageCard
          (.cons "summary" (.vStr "Summary") (.cons "title" (.vStr "t") .nil))) = true
    ∧ veq (.vObj .messageCard
          (.cons "summary" (.vStr "Summary") (.cons "title" (.vStr "t") .nil)))
        (.vObj .messageCard (.cons "summary" (.vStr "Summary") .nil)) = false
    ∧ mkMessageCard initState [] =
        .ok ⟨.messageCard, .cons "summary" (.vStr "Summary") .nil⟩
    ∧ setField initState ⟨.messageCard, .cons "summary" (.vStr "Summary") .nil⟩
        "title" (.vStr "t") =
        .ok ⟨.messageCard,
          .cons "summary" (.vStr "Summary") (.cons "title" (.vStr "t") .nil)⟩ :=
  ⟨rfl, rfl, rfl, rfl⟩

/-- C4 amended: equals(a, b) holds if and only if a and b are the same
kind and every field set on a is set on b with an equal value; fields
set only on b are not examined, so the relation is left-biased and not
symmetric (the counterexample exhibits the asymmetry). -/
theorem c4_equality_left_biased (k k' : Kind) (a b : Attrs) :
    veq (.vObj k a) (.vObj k' b) = true ↔
      k = k' ∧ ∀ p ∈ a.toList, ∃ w, b.get p.1 = some w ∧ veq p.2 w = true := by
  simp only [veq, Bool.and_eq_true, beq_iff_eq, aeq_iff]

/-- Witness for C4 amended at a concrete input: the characterization
applied to the two message cards of the counterexample. -/
theorem c4_equality_left_biased_witness :
    Kind.messageCard = Kind.messageCard
    ∧ ∀ p ∈ (Attrs.cons "summary" (V.vStr "Summary") .nil).toList,
        ∃ w, (Attrs.cons "summary" (V.vStr "Summary")
          (.cons "title" (V.vStr "t") .nil)).get p.1 = some w ∧ veq p.2 w = true :=
  (c4_equality_left_biased .messageCard .messageCard
      (.cons "summary" (.vStr "Summary") .nil)
      (.cons "summary" (.vStr "Summary") (.cons "title" (.vStr "t") .nil))).mp rfl

/-- The style field specification installed by the MultipleChoiceInput
constructor. -/
def styleSpec : FieldSpec := ⟨.str, false, some [.vStr "normal", .vStr "expanded"]⟩

theorem style_set_invalid (st : SchemaState) (o : Obj) (s : String)
    (hk : o.kind = .multipleChoiceInput)
    (hstyle : sget st.inputFields "style" = some styleSpec)
    (h1 : s ≠ "normal") (h2 : s ≠ "expanded") :
    setField st o "style" (.vStr s) =
      .error (.valueError "Got invalid value for style") := by
  simp [setField, hk, fieldsOf, checkValue, hstyle, styleSpec, isInst, veq,
    beq_iff_eq, Ne.symm h1, Ne.symm h2]

theorem style_set_valid (st : SchemaState) (o : Obj) (s : String)
    (hk : o.kind = .multipleChoiceInput)
    (hstyle : sget st.inputFields "style" = some styleSpec)
    (h : s = "normal" ∨ s = "expanded") :
    setField st o "style" (.vStr s) = .ok ⟨o.kind, o.attrs.set "style" (.vStr s)⟩ := by
  rcases h with rfl | rfl <;>
    simp [setField, hk, fieldsOf, checkValue, hstyle, styleSpec, isInst, veq, isIter]

/-- C8 counterexample: the claim demands ValueError for every value
outside the closed style set, but a non-string value outside the set
(a boolean via set, an integer at construction) fails with TypeError
instead, because the type check precedes the allowed-value check and no
converter from bool or int to str exists. -/
theorem c8_counterexample :
    (mkMultipleChoiceInput initState []).2 = .ok ⟨.multipleChoiceInput, .nil⟩
    ∧ setField (mkMultipleChoiceInput initState []).1
        ⟨.multipleChoiceInput, .nil⟩ "style" (.vBool true) =
        .error (.typeError "Got argument of wrong type (bool)")
    ∧ (mkMultipleChoiceInput initState [("style", .vInt 0)]).2 =
        .error (.typeError "Got argument of wrong type (int)") :=
  ⟨rfl, rfl, rfl⟩

/-- C8 amended: with the style specification installed in the shared
input table (as every MultipleChoiceInput construction installs it),
setting style on a MultipleChoiceInput instance to a string outside
the closed set fails with ValueError, both via the set operation and at
construction; setting it to normal or expanded succeeds; and setting it
to a non-string value (such as a boolean) fails with TypeError, not
ValueError. -/
theorem c8_style_validation (st : SchemaState) (o : Obj) (s : String)
    (hk : o.kind = .multipleChoiceInput)
    (hstyle : sget st.inputFields "style" = some styleSpec) :
    (s ≠ "normal" → s ≠ "expanded" →
      setField st o "style" (.vStr s) =
        .error (.valueError "Got invalid value for style"))
    ∧ (s = "normal" ∨ s = "expanded" →
      setField st o "style" (.vStr s) =
        .ok ⟨o.kind, o.attrs.set "style" (.vStr s)⟩)
    ∧ (∀ b : Bool, setField st o "style" (.vBool b) =
        .error (.typeError "Got argument of wrong type (bool)"))
    ∧ (∀ st₀ : SchemaState, s ≠ "normal" → s ≠ "expanded" →
      (mkMultipleChoiceInput st₀ [("style", .vStr s)]).2 =
        .error (.valueError "Got invalid value for style")) := by
  refine ⟨style_set_invalid st o s hk hstyle, style_set_valid st o s hk hstyle,
    ?_, ?_⟩
  · intro b
    simp [setField, hk, fieldsOf, checkValue, hstyle, styleSpec, isInst, hasConv,
      typeName]
  · intro st₀ h1 h2
    have hstyle' :
        sget (odUpdate st₀.inputFields multipleChoiceSubFields) "style" =
          some styleSpec := by
      simp only [odUpdate, multipleChoiceSubFields, List.foldl]
      rw [sget_odSet_self]
      rfl
    have := style_set_invalid ⟨odUpdate st₀.inputFields multipleChoiceSubFields⟩
      ⟨.multipleChoiceInput, .nil⟩ s rfl hstyle' h1 h2
    simp [mkMultipleChoiceInput, setFields, this]

/-- Witness for C8 amended at concrete inputs: in the schema state left
behind by a MultipleChoiceInput construction, setting style to the
string invalid on the constructed instance fails with ValueError. -/
theorem c8_style_validation_witness :
    setField (mkMultipleChoiceInput initState []).1
      ⟨.multipleChoiceInput, .nil⟩ "style" (.vStr "invalid") =
      .error (.valueError "Got invalid value for style") :=
  (c8_style_validation (mkMultipleChoiceInput initState []).1
      ⟨.multipleChoiceInput, .nil⟩ "invalid" rfl rfl).1
    (by decide) (by decide)

theorem checkValue_nonIter (flds : Schema) (f : String) (v : V)
    (spec : FieldSpec) (hspec : sget flds f = some spec)
    (hniter : isIter v = false) (hinst : isInst v spec.expectedType = true) :
    checkValue flds f v =
      (match spec.validValues with
       | some vv =>
         if vv.any (fun x => veq x v) then
           (if spec.allowIter then .ok (.vList (.cons v .nil)) else .ok v)
         else .error (.valueError ("Got invalid value for " ++ f))
       | none =>
         if spec.allowIter then .ok (.vList (.cons v .nil)) else .ok v) := by
  cases hvv : spec.validValues with
  | none =>
    cases hai : spec.allowIter <;>
      cases v <;>
        first
        | exact Bool.noConfusion hniter
        | simp [checkValue, hspec, hinst, hvv, hai, isIter]
  | some vv =>
    by_cases hex : ∃ x ∈ vv, veq x v = true <;>
      cases hai : spec.allowIter <;>
        cases v <;>
          first
          | exact Bool.noConfusion hniter
          | simp [checkValue, hspec, hinst, hvv, hai, hex, isIter]

/-- C1: for every kind, every field of the schema its instances consult,
and every value accepted by the validation (checkValue returns a
sanitized value sv), setting the field stores sv and reading the field
back returns exactly sv; and when the field is sequence-accepting and
the given value is a non-iterable of the expected element type, the
stored value is the one-element sequence holding the given value. -/
theorem c1_set_get_roundtrip (st : SchemaState) (o : Obj) (f : String)
    (v sv : V) (h : checkValue (fieldsOf st o.kind) f v = .ok sv) :
    setField st o f v = .ok ⟨o.kind, o.attrs.set f sv⟩
    ∧ getField ⟨o.kind, o.attrs.set f sv⟩ f = .ok sv
    ∧ ∀ spec, sget (fieldsOf st o.kind) f = some spec →
        spec.allowIter = true → isIter v = false →
        isInst v spec.expectedType = true → sv = .vList (.cons v .nil) := by
  refine ⟨by simp [setField, h], by simp [getField, Attrs.get_set_self], ?_⟩
  intro spec hspec hIter hniter hinst
  rw [checkValue_nonIter (fieldsOf st o.kind) f v spec hspec hniter hinst] at h
  cases hvv : spec.validValues with
  | none =>
    simp [hvv, hIter] at h
    exact h.symm
  | some vv =>
    by_cases hmem : vv.any (fun x => veq x v) <;> simp [hvv, hIter, hmem] at h
    exact h.symm

/-- Witness for C1 at a concrete input: setting the sequence-accepting
facts field of a CardSection to a single Fact element stores, and reads
back, the one-element sequence holding that element. -/
theorem c1_set_get_roundtrip_witness :
    setField initState ⟨.cardSection, .nil⟩ "facts"
      (.vObj .fact (.cons "name" (.vStr "a") (.cons "value" (.vStr "b") .nil))) =
      .ok ⟨.cardSection, Attrs.nil.set "facts"
        (.vList (.cons (.vObj .fact
          (.cons "name" (.vStr "a") (.cons "value" (.vStr "b") .nil))) .nil))⟩
    ∧ getField ⟨.cardSection, Attrs.nil.set "facts"
        (.vList (.cons (.vObj .fact
          (.cons "name" (.vStr "a") (.cons "value" (.vStr "b") .nil))) .nil))⟩
        "facts" =
      .ok (.vList (.cons (.vObj .fact
        (.cons "name" (.vStr "a") (.cons "value" (.vStr "b") .nil))) .nil))
    ∧ (.vList (.cons (.vObj .fact
        (.cons "name" (.vStr "a") (.cons "value" (.vStr "b") .nil))) .nil) : V) =
      .vList (.cons (.vObj .fact
        (.cons "name" (.vStr "a") (.cons "value" (.vStr "b") .nil))) .nil) := by
  have h := c1_set_get_roundtrip initState ⟨.cardSection, .nil⟩ "facts"
    (.vObj .fact (.cons "name" (.vStr "a") (.cons "value" (.vStr "b") .nil)))
    (.vList (.cons (.vObj .fact
      (.cons "name" (.vStr "a") (.cons "value" (.vStr "b") .nil))) .nil))
    rfl
  exact ⟨h.1, h.2.1, h.2.2 ⟨.fact, true, none⟩ rfl rfl rfl rfl⟩

/-- C7: constructing an open-URI action from a plain URL string yields
exactly one target tagged with the default platform (rendered with os
default and that uri); appending a target for a platform not yet present
appends one entry after the existing ones; appending a target whose
platform already occurs among the stored targets fails with ValueError
(and, the model being functional, produces no changed instance).  The
general parts quantify over any instance whose targets field holds a
list; the closed parts are the specification's scenario at
http://x.org. -/
theorem c7_open_uri_targets (st : SchemaState) (o : Obj) (os uri : V)
    (ts : VList) (hts : o.attrs.get "targets" = some (.vList ts)) :
    (osListContains ts os = true →
      addTarget st o os uri = .error (.valueError "Target already set"))
    ∧ (∀ t : Obj, osListContains ts os = false → mkUriTarget st os uri = .ok t →
        addTarget st o os uri =
          .ok ⟨o.kind, o.attrs.set "targets"
            (.vList (ts.append (.cons t.toV .nil)))⟩)
    ∧ mkOpenUriAction initState (.vStr "Open URL") (.vStr "http://x.org") =
        .ok ⟨.openUriAction, .cons "name" (.vStr "Open URL")
          (.cons "targets" (.vList
            (.cons (pairObj .uriTarget "os" "default" "uri" "http://x.org") .nil))
            .nil)⟩
    ∧ getPayloadPython initState
        ⟨.openUriAction, .cons "name" (.vStr "Open URL")
          (.cons "targets" (.vList
            (.cons (pairObj .uriTarget "os" "default" "uri" "http://x.org") .nil))
            .nil)⟩ =
        .jo (.cons "@type" (.js "OpenUri") (.cons "name" (.js "Open URL")
          (.cons "targets" (.ja (.cons (.jo (.cons "os" (.js "default")
            (.cons "uri" (.js "http://x.org") .nil))) .nil)) .nil)))
    ∧ addTarget initState
        ⟨.openUriAction, .cons "name" (.vStr "Open URL")
          (.cons "targets" (.vList
            (.cons (pairObj .uriTarget "os" "default" "uri" "http://x.org") .nil))
            .nil)⟩ (.vStr "android") (.vStr "http://y.org") =
        .ok ⟨.openUriAction, .cons "name" (.vStr "Open URL")
          (.cons "targets" (.vList
            (.cons (pairObj .uriTarget "os" "default" "uri" "http://x.org")
              (.cons (pairObj .uriTarget "os" "android" "uri" "http://y.org")
                .nil))) .nil)⟩
    ∧ addTarget initState
        ⟨.openUriAction, .cons "name" (.vStr "Open URL")
          (.cons "targets" (.vList
            (.cons (pairObj .uriTarget "os" "default" "uri" "http://x.org") .nil))
            .nil)⟩ (.vStr "default") (.vStr "http://z.org") =
        .error (.valueError "Target already set") := by
  refine ⟨?_, ?_, rfl, rfl, rfl, rfl⟩
  · intro hdup
    simp [addTarget, hts, hdup]
  · intro t hdup hmk
    simp [addTarget, hts, hdup, hmk, Bind.bind, Except.bind]

/-- Witness for C7 at a concrete input: the general duplicate-rejection
and append conclusions instantiated on the scenario action built from
http://x.org, rejecting a second default target and appending an android
target. -/
theorem c7_open_uri_targets_witness :
    addTarget initState
      ⟨.openUriAction, .cons "name" (.vStr "Open URL")
        (.cons "targets" (.vList
          (.cons (pairObj .uriTarget "os" "default" "uri" "http://x.org") .nil))
          .nil)⟩ (.vStr "default") (.vStr "http://z.org") =
      .error (.valueError "Target already set")
    ∧ addTarget initState
      ⟨.openUriAction, .cons "name" (.vStr "Open URL")
        (.cons "targets" (.vList
          (.cons (pairObj .uriTarget "os" "default" "uri" "http://x.org") .nil))
          .nil)⟩ (.vStr "android") (.vStr "http://y.org") =
      .ok ⟨.openUriAction,
        (Attrs.cons "name" (.vStr "Open URL")
          (.cons "targets" (.vList
            (.cons (pairObj .uriTarget "os" "default" "uri" "http://x.org") .nil))
            .nil)).set "targets"
          (.vList ((VList.cons (pairObj .uriTarget "os" "default" "uri" "http://x.org")
            .nil).append
            (.cons (Obj.toV ⟨.uriTarget, .cons "os" (.vStr "android")
              (.cons "uri" (.vStr "http://y.org") .nil)⟩) .nil)))⟩ := by
  have h := c7_open_uri_targets initState
    ⟨.openUriAction, .cons "name" (.vStr "Open URL")
      (.cons "targets" (.vList
        (.cons (pairObj .uriTarget "os" "default" "uri" "http://x.org") .nil))
        .nil)⟩ (.vStr "default") (.vStr "http://z.org")
    (.cons (pairObj .uriTarget "os" "default" "uri" "http://x.org") .nil) rfl
  have h2 := c7_open_uri_targets initState
    ⟨.openUriAction, .cons "name" (.vStr "Open URL")
      (.cons "targets" (.vList
        (.cons (pairObj .uriTarget "os" "default" "uri" "http://x.org") .nil))
        .nil)⟩ (.vStr "android") (.vStr "http://y.org")
    (.cons (pairObj .uriTarget "os" "default" "uri" "http://x.org") .nil) rfl
  exact ⟨h.1 rfl,
    h2.2.1 ⟨.uriTarget, .cons "os" (.vStr "android")
      (.cons "uri" (.vStr "http://y.org") .nil)⟩ rfl rfl⟩

theorem all_ofList_map {α : Type} (xs : List α) (g : α → V) (p : V → Bool)
    (h : ∀ a, p (g a) = true) : (VList.ofList (xs.map g)).all p = true := by
  induction xs with
  | nil => rfl
  | cons a rest ih => simp [VList.ofList, VList.all, h, ih]

theorem applyConv_sound (T : ExpType) (v w : V) (h : applyConv T v = .ok w) :
    (isIter w = false → isInst w T = true)
    ∧ ∀ ws, w = .vList ws → ws.all (fun x => isInst x T) = true := by
  cases T <;> cases v <;> simp [applyConv] at h
  case imageObject.vStr => subst h; simp [isInst]
  case uriTarget.vStr => subst h; simp [pairObj, isInst]
  case imageObject.vDict =>
    rename_i entries
    cases entries with
    | nil => simp [applyConv] at h
    | cons p tail =>
      obtain ⟨t, i⟩ := p
      simp [applyConv] at h
      subst h
      simp [pairObj, isInst]
  case fact.vDict =>
    subst h
    refine ⟨by simp [isIter], ?_⟩
    intro ws hw
    injection hw with h2
    subst h2
    exact all_ofList_map _ _ _ (fun a => rfl)
  case uriTarget.vDict =>
    subst h
    refine ⟨by simp [isIter], ?_⟩
    intro ws hw
    injection hw with h2
    subst h2
    exact all_ofList_map _ _ _ (fun a => rfl)
  case header.vDict =>
    subst h
    refine ⟨by simp [isIter], ?_⟩
    intro ws hw
    injection hw with h2
    subst h2
    exact all_ofList_map _ _ _ (fun a => rfl)
  case choice.vDict =>
    subst h
    refine ⟨by simp [isIter], ?_⟩
    intro ws hw
    injection hw with h2
    subst h2
    exact all_ofList_map _ _ _ (fun a => rfl)

theorem checkValue_nonIter_full (flds : Schema) (f : String) (v : V)
    (spec : FieldSpec) (hspec : sget flds f = some spec)
    (hniter : isIter v = false) :
    checkValue flds f v =
      (match (if isInst v spec.expectedType then Except.ok v
              else if hasConv spec.expectedType (typeName v) then
                applyConv spec.expectedType v
              else Except.error (PyErr.typeError
                ("Got argument of wrong type (" ++ typeName v ++ ")"))) with
       | .error e => Except.error e
       | .ok v' =>
         match (match spec.validValues with
                | some vv =>
                  if vv.any (fun x => veq x v') then Except.ok v'
                  else Except.error (PyErr.valueError ("Got invalid value for " ++ f))
                | none => Except.ok v') with
         | .error e => Except.error e
         | .ok v'' =>
           if !isIter v'' && spec.allowIter then
             Except.ok (V.vList (.cons v'' .nil))
           else Except.ok v'') := by
  cases v <;>
    first
    | exact Bool.noConfusion hniter
    | simp [checkValue, hspec]

theorem checkValue_ok_list_all (flds : Schema) (f : String) (T : ExpType)
    (v : V) (ws : VList)
    (hspec : sget flds f = some ⟨T, true, none⟩)
    (h : checkValue flds f v = .ok (.vList ws)) :
    ws.all (fun x => isInst x T) = true := by
  by_cases hit : isIter v = true
  · obtain ⟨items, rfl⟩ : ∃ items, v = .vList items := by
      cases v <;> simp [isIter] at hit ⊢
    simp [checkValue, hspec] at h
    split at h
    · rename_i hcond
      obtain rfl : items = ws := by
        simpa using h
      exact hcond
    · simp at h
  · have hniter : isIter v = false := by
      cases hiv : isIter v
      · rfl
      · exact absurd hiv hit
    rw [checkValue_nonIter_full flds f v ⟨T, true, none⟩ hspec hniter] at h
    by_cases hinst : isInst v T = true
    · simp [hinst, hniter] at h
      obtain rfl : VList.cons v .nil = ws := by simpa using h
      simp [VList.all, hinst]
    · by_cases hconv : hasConv T (typeName v) = true
      · simp [hinst, hconv] at h
        cases happ : applyConv T v with
        | error e => simp [happ] at h
        | ok w =>
          simp [happ] at h
          by_cases hw : isIter w = true
          · simp [hw] at h
            obtain rfl : w = .vList ws := by simpa using h
            exact (applyConv_sound T v (.vList ws) happ).2 ws rfl
          · have hwf : isIter w = false := by
              cases hiw : isIter w
              · rfl
              · exact absurd hiw hw
            simp [hwf] at h
            obtain rfl : VList.cons w .nil = ws := by simpa using h
            simp [VList.all, (applyConv_sound T v w happ).1 hwf]
      · simp [hinst, hconv] at h

/-- C10: on an ActionCard whose inputs (respectively actions) field
already holds a sequence ys, add_inputs (respectively add_actions) with
a validated xs stores only the checked xs: the read-back equals the
checked sequence, and (whenever ys is non-empty) the checked sequence is
not the concatenation of ys with it — the old elements are discarded,
despite the docstring's promise of an append. -/
theorem c10_add_replaces :
    (∀ (st : SchemaState) (o : Obj) (ys sxs : VList) (xs : V),
      o.kind = .actionCard →
      o.attrs.get "inputs" = some (.vList ys) →
      checkValue actionCardFields "inputs" xs = .ok (.vList sxs) →
      addInputs st o xs = .ok ⟨o.kind, o.attrs.set "inputs" (.vList sxs)⟩
      ∧ getField ⟨o.kind, o.attrs.set "inputs" (.vList sxs)⟩ "inputs" =
          .ok (.vList sxs)
      ∧ (ys ≠ .nil → VList.append ys sxs ≠ sxs))
    ∧ (∀ (st : SchemaState) (o : Obj) (ys sxs : VList) (xs : V),
      o.kind = .actionCard →
      o.attrs.get "actions" = some (.vList ys) →
      checkValue actionCardFields "actions" xs = .ok (.vList sxs) →
      addActions st o xs = .ok ⟨o.kind, o.attrs.set "actions" (.vList sxs)⟩
      ∧ getField ⟨o.kind, o.attrs.set "actions" (.vList sxs)⟩ "actions" =
          .ok (.vList sxs)
      ∧ (ys ≠ .nil → VList.append ys sxs ≠ sxs)) := by
  constructor
  · intro st o ys sxs xs hk hset hchk
    have hall := checkValue_ok_list_all actionCardFields "inputs" .input xs sxs
      rfl hchk
    have hre : checkValue actionCardFields "inputs" (.vList sxs) =
        .ok (.vList sxs) := by
      simp [checkValue, sget, actionCardFields, hall]
    refine ⟨?_, by simp [getField, Attrs.get_set_self], ?_⟩
    · simp [addInputs, hk, fieldsOf, hchk, Bind.bind, Except.bind, setField, hre]
    · intro hys heq
      have hlen := congrArg VList.length heq
      rw [VList.length_append] at hlen
      cases ys with
      | nil => exact absurd rfl hys
      | cons a rest => simp [VList.length] at hlen
  · intro st o ys sxs xs hk hset hchk
    have hall := checkValue_ok_list_all actionCardFields "actions" .action xs sxs
      rfl hchk
    have hre : checkValue actionCardFields "actions" (.vList sxs) =
        .ok (.vList sxs) := by
      simp [checkValue, sget, actionCardFields, hall]
    refine ⟨?_, by simp [getField, Attrs.get_set_self], ?_⟩
    · simp [addActions, hk, fieldsOf, hchk, Bind.bind, Except.bind, setField, hre]
    · intro hys heq
      have hlen := congrArg VList.length heq
      rw [VList.length_append] at hlen
      cases ys with
      | nil => exact absurd rfl hys
      | cons a rest => simp [VList.length] at hlen

/-- Witness for C10 at a concrete input: an ActionCard holding one input
(id a) receives add_inputs with one new input (id b); the stored field
afterwards is exactly the one-element checked list, which is not the
two-element concatenation. -/
theorem c10_add_replaces_witness :
    addInputs initState
      ⟨.actionCard, .cons "inputs"
        (.vList (.cons (.vObj .textInput (.cons "id" (.vStr "a") .nil)) .nil))
        .nil⟩
      (.vList (.cons (.vObj .textInput (.cons "id" (.vStr "b") .nil)) .nil)) =
      .ok ⟨.actionCard,
        (Attrs.cons "inputs"
          (.vList (.cons (.vObj .textInput (.cons "id" (.vStr "a") .nil)) .nil))
          .nil).set "inputs"
          (.vList (.cons (.vObj .textInput (.cons "id" (.vStr "b") .nil)) .nil))⟩
    ∧ VList.append
        (.cons (.vObj .textInput (.cons "id" (.vStr "a") .nil)) .nil)
        (.cons (.vObj .textInput (.cons "id" (.vStr "b") .nil)) .nil) ≠
      .cons (.vObj .textInput (.cons "id" (.vStr "b") .nil)) .nil := by
  have h := c10_add_replaces.1 initState
    ⟨.actionCard, .cons "inputs"
      (.vList (.cons (.vObj .textInput (.cons "id" (.vStr "a") .nil)) .nil))
      .nil⟩
    (.cons (.vObj .textInput (.cons "id" (.vStr "a") .nil)) .nil)
    (.cons (.vObj .textInput (.cons "id" (.vStr "b") .nil)) .nil)
    (.vList (.cons (.vObj .textInput (.cons "id" (.vStr "b") .nil)) .nil))
    rfl rfl rfl
  exact ⟨h.1, h.2.2 (fun hcontra => nomatch hcontra)⟩

theorem JEntries.append_nil (e : JEntries) : e.append .nil = e := by
  match e with
  | .nil => rfl
  | .cons k v rest => simp [JEntries.append, JEntries.append_nil rest]

theorem JEntries.append_assoc (a b c : JEntries) :
    (a.append b).append c = a.append (b.append c) := by
  match a with
  | .nil => rfl
  | .cons k v rest => simp [JEntries.append, JEntries.append_assoc rest b c]

theorem JEntries.ofList_append (l1 l2 : List (String × J)) :
    JEntries.ofList (l1 ++ l2) = (JEntries.ofList l1).append (JEntries.ofList l2) := by
  induction l1 with
  | nil => rfl
  | cons p rest ih =>
    obtain ⟨k, v⟩ := p
    simp [JEntries.ofList, JEntries.append, ih]

theorem JEntries.keys_append (a b : JEntries) :
    (a.append b).keys = a.keys ++ b.keys := by
  match a with
  | .nil => rfl
  | .cons k v rest => simp [JEntries.append, JEntries.keys, JEntries.keys_append rest b]

theorem JEntries.keys_ofList (l : List (String × J)) :
    (JEntries.ofList l).keys = l.map Prod.fst := by
  induction l with
  | nil => rfl
  | cons p rest ih =>
    obtain ⟨k, v⟩ := p
    simp [JEntries.ofList, JEntries.keys, ih]

theorem JEntries.set_eq_append (e : JEntries) (key : String) (v : J)
    (h : key ∉ e.keys) : e.set key v = e.append (.cons key v .nil) := by
  match e with
  | .nil => rfl
  | .cons k w rest =>
    simp [JEntries.keys] at h
    simp [JEntries.set, JEntries.append, Ne.symm h.1,
      JEntries.set_eq_append rest key v h.2]

theorem jget_renderAttrs (st : SchemaState) (a : Attrs) (n : String) :
    jget (renderAttrs st a) n = (a.get n).map (renderV st) := by
  match a with
  | .nil => rfl
  | .cons k v rest =>
    by_cases h : k = n <;>
      simp [renderAttrs, jget, Attrs.get, h, jget_renderAttrs st rest n]

theorem renderFields_eq (flds : Schema) (rattrs : List (String × J))
    (payload : JEntries)
    (hnodup : (flds.map (fun p => snakeToDromedary p.1)).Nodup)
    (hdisj : ∀ p ∈ flds, snakeToDromedary p.1 ∉ payload.keys) :
    renderFields flds rattrs payload =
      payload.append (JEntries.ofList (flds.filterMap
        (fun p => (jget rattrs p.1).map (fun jv => (snakeToDromedary p.1, jv))))) := by
  induction flds generalizing payload with
  | nil => simp [renderFields, JEntries.ofList, JEntries.append_nil]
  | cons hd rest ih =>
    obtain ⟨n, fs⟩ := hd
    simp only [List.map_cons, List.nodup_cons] at hnodup
    obtain ⟨hkey, hnodup'⟩ := hnodup
    cases hj : jget rattrs n with
    | none =>
      simp only [renderFields, hj, List.filterMap_cons, Option.map_none']
      exact ih _ hnodup' (fun p hp => hdisj p (by simp [hp]))
    | some jv =>
      simp only [renderFields, hj, List.filterMap_cons, Option.map_some']
      rw [JEntries.set_eq_append payload _ jv (hdisj (n, fs) (by simp))]
      have hdisj2 : ∀ p ∈ rest, snakeToDromedary p.1 ∉
          (payload.append (JEntries.cons (snakeToDromedary n) jv .nil)).keys := by
        intro p hp
        rw [JEntries.keys_append]
        simp only [List.mem_append, JEntries.keys]
        rintro (hin | hin)
        · exact hdisj p (by simp [hp]) hin
        · simp at hin
          exact hkey (hin ▸ List.mem_map_of_mem _ hp)
      rw [ih _ hnodup' hdisj2, JEntries.append_assoc]
      congr 1

/-- C2: the rendered structure of an instance starts with the reserved
discriminator entries of its kind (the type tag, followed for the root
card kind by the context marker), followed by exactly the schema fields
that are set, in schema declaration order, under their dromedary-cased
keys; a declared field that was never set contributes no key; and the
root MessageCard with no optional fields set renders exactly the three
entries type tag, context marker and default summary, in that order.
The hypotheses (the dromedary-cased field keys of the kind are pairwise
distinct and distinct from the reserved keys) hold for every schema of
the source. -/
theorem c2_render_order (st : SchemaState) (k : Kind) (attrs : Attrs)
    (hnodup : ((fieldsOf st k).map (fun p => snakeToDromedary p.1)).Nodup)
    (hdisj : ∀ p ∈ fieldsOf st k,
      snakeToDromedary p.1 ∉ (reservedEntries k).map Prod.fst) :
    renderV st (.vObj k attrs) =
      .jo (JEntries.ofList
        ((reservedEntries k).map (fun p => (p.1, J.js p.2))
         ++ (fieldsOf st k).filterMap
           (fun p => (attrs.get p.1).map
             (fun v => (snakeToDromedary p.1, renderV st v)))))
    ∧ (∀ n, n ∈ (fieldsOf st k).map Prod.fst → attrs.get n = none →
        ∀ es, renderV st (.vObj k attrs) = .jo es → snakeToDromedary n ∉ es.keys)
    ∧ mkMessageCard initState [] =
        .ok ⟨.messageCard, .cons "summary" (.vStr "Summary") .nil⟩
    ∧ getPayloadPython initState
        ⟨.messageCard, .cons "summary" (.vStr "Summary") .nil⟩ =
        .jo (.cons "@type" (.js "MessageCard")
          (.cons "@context" (.js "https://schema.org/extensions")
            (.cons "summary" (.js "Summary") .nil))) := by
  have hpref : ∀ p ∈ fieldsOf st k, snakeToDromedary p.1 ∉
      (JEntries.ofList ((reservedEntries k).map
        (fun p => (p.1, J.js p.2)))).keys := by
    intro p hp
    rw [JEntries.keys_ofList, List.map_map]
    exact hdisj p hp
  have hmain : renderV st (.vObj k attrs) =
      .jo (JEntries.ofList
        ((reservedEntries k).map (fun p => (p.1, J.js p.2))
         ++ (fieldsOf st k).filterMap
           (fun p => (attrs.get p.1).map
             (fun v => (snakeToDromedary p.1, renderV st v))))) := by
    show J.jo (renderFields (fieldsOf st k) (renderAttrs st attrs)
      (JEntries.ofList ((reservedEntries k).map (fun p => (p.1, J.js p.2))))) = _
    rw [renderFields_eq (fieldsOf st k) (renderAttrs st attrs) _ hnodup hpref]
    rw [JEntries.ofList_append]
    congr 2
    refine congrArg JEntries.ofList ?_
    apply List.filterMap_congr
    intro p _
    rw [jget_renderAttrs, Option.map_map]
    rfl
  refine ⟨hmain, ?_, rfl, rfl⟩
  intro n hn hnone es hes
  rw [hmain] at hes
  injection hes with hes
  subst hes
  rw [JEntries.keys_ofList, List.map_append, List.map_map]
  simp only [List.mem_append]
  rintro (hin | hin)
  · obtain ⟨q, hq, hq1⟩ := List.mem_map.mp hn
    exact hdisj q hq (by rw [hq1]; exact hin)
  · rw [List.map_filterMap] at hin
    obtain ⟨p, hp, hpeq⟩ := List.mem_filterMap.mp hin
    cases hgp : attrs.get p.1 with
    | none => rw [hgp] at hpeq; simp at hpeq
    | some v =>
      rw [hgp] at hpeq
      simp only [Option.map_some'] at hpeq
      injection hpeq with hdrom
      obtain ⟨q, hq, hq1⟩ := List.mem_map.mp hn
      have hpq : p = q := by
        apply List.inj_on_of_nodup_map hnodup hp hq
        rw [hdrom, hq1]
      rw [hpq, hq1] at hgp
      rw [hgp] at hnone
      cases hnone

/-- Witness for C2 at a concrete input: the rendering equation and
missing-key conclusion instantiated on the default root card in the
initial schema state. -/
theorem c2_render_order_witness :
    renderV initState (.vObj .messageCard (.cons "summary" (.vStr "Summary") .nil)) =
      .jo (JEntries.ofList
        ((reservedEntries .messageCard).map (fun p => (p.1, J.js p.2))
         ++ (fieldsOf initState .messageCard).filterMap
           (fun p => ((Attrs.cons "summary" (V.vStr "Summary") .nil).get p.1).map
             (fun v => (snakeToDromedary p.1, renderV initState v)))))
    ∧ ∀ es, renderV initState
        (.vObj .messageCard (.cons "summary" (.vStr "Summary") .nil)) = .jo es →
        snakeToDromedary "theme_color" ∉ es.keys := by
  have h := c2_render_order initState .messageCard
    (.cons "summary" (.vStr "Summary") .nil) (by decide) (by decide)
  exact ⟨h.1, h.2.1 "theme_color" (by decide) rfl⟩

/-- Runs the whitespace stripper over a whole string. -/
def stripRunS (s : Bool × Bool) (str : String) : List Char × (Bool × Bool) :=
  stripRun s str.data

theorem stripRun_append (s : Bool × Bool) (a b : List Char) :
    stripRun s (a ++ b) =
      ((stripRun s a).1 ++ (stripRun (stripRun s a).2 b).1,
       (stripRun (stripRun s a).2 b).2) := by
  induction a generalizing s with
  | nil => simp [stripRun]
  | cons c cs ih =>
    rcases hstep : stripStep s c with ⟨out, s'⟩
    simp [stripRun, hstep, ih s']

theorem stripRun_chain {s1 s2 s3 : Bool × Bool} {a b oa ob : List Char}
    (ha : stripRun s1 a = (oa, s2)) (hb : stripRun s2 b = (ob, s3)) :
    stripRun s1 (a ++ b) = (oa ++ ob, s3) := by
  rw [stripRun_append, ha, hb]

theorem stripRunS_chain {s1 s2 s3 : Bool × Bool} {a b : String}
    {oa ob : List Char}
    (ha : stripRunS s1 a = (oa, s2)) (hb : stripRunS s2 b = (ob, s3)) :
    stripRunS s1 (a ++ b) = (oa ++ ob, s3) := by
  simp only [stripRunS, String.data_append]
  exact stripRun_chain ha hb

theorem data_spaces (k : Nat) : (spaces k).data = List.replicate k ' ' := rfl

theorem stripRun_replicate_space (k : Nat) :
    stripRun (false, false) (List.replicate k ' ') = ([], (false, false)) := by
  induction k with
  | zero => rfl
  | succ m ih => simp [List.replicate, stripRun, stripStep, ih]

theorem stripRunS_spaces (k : Nat) :
    stripRunS (false, false) (spaces k) = ([], (false, false)) := by
  simp [stripRunS, data_spaces, stripRun_replicate_space]

theorem stripStep_hexDigit_in (d : Nat) :
    stripStep (true, false) (hexDigitChar d) =
      ([hexDigitChar d], (true, false)) := by
  unfold hexDigitChar
  split <;> decide

theorem stripStep_hexDigit_out (d : Nat) :
    stripStep (false, false) (hexDigitChar d) =
      ([hexDigitChar d], (false, false)) := by
  unfold hexDigitChar
  split <;> decide

theorem stripRun_uEscapeLow (m : Nat) :
    stripRun (true, false) (uEscapeLow m) = (uEscapeLow m, (true, false)) := by
  have hbs : stripStep (true, false) '\\' = (['\\'], (true, true)) := rfl
  have hu : stripStep (true, true) 'u' = (['u'], (true, false)) := rfl
  simp [uEscapeLow, stripRun, hbs, hu, stripStep_hexDigit_in]

theorem stripRun_uEscape (m : Nat) :
    stripRun (true, false) (uEscape m) = (uEscape m, (true, false)) := by
  unfold uEscape
  split
  · exact stripRun_uEscapeLow m
  · exact stripRun_chain (stripRun_uEscapeLow _) (stripRun_uEscapeLow _)

theorem stripRun_escChar (c : Char) :
    stripRun (true, false) (escChar c) = (escChar c, (true, false)) := by
  unfold escChar
  split_ifs with h1 h2 h3 h4 h5 h6 h7 h8
  · decide
  · decide
  · decide
  · decide
  · decide
  · decide
  · decide
  · exact stripRun_uEscape c.toNat
  · simp [stripRun, stripStep, h1, h2]

theorem stripRun_escList (cs : List Char) :
    stripRun (true, false) (escList cs) = (escList cs, (true, false)) := by
  induction cs with
  | nil => rfl
  | cons c rest ih =>
    show stripRun (true, false) (escChar c ++ escList rest) = _
    exact stripRun_chain (stripRun_escChar c) ih

theorem stripRunS_escString (s : String) :
    stripRunS (false, false) (escString s) =
      ((escString s).data, (false, false)) := by
  show stripRun (false, false) ('"' :: (escList s.data ++ ['"'])) = _
  rcases hrun : stripRun (true, false) (escList s.data ++ ['"'])
    with ⟨out, sfin⟩
  have hrun' : stripRun (true, false) (escList s.data ++ ['"']) =
      (escList s.data ++ ['"'], (false, false)) :=
    stripRun_chain (stripRun_escList s.data) rfl
  simp [stripRun, stripStep, hrun', escString]

theorem stripRun_natToDigits (fuel n : Nat) :
    stripRun (false, false) (natToDigits fuel n) =
      (natToDigits fuel n, (false, false)) := by
  induction fuel generalizing n with
  | zero => rfl
  | succ m ih =>
    unfold natToDigits
    split
    · simp [stripRun, stripStep_hexDigit_out]
    · exact stripRun_chain (ih (n / 10))
        (by simp [stripRun, stripStep_hexDigit_out])

theorem stripRunS_natRepr (n : Nat) :
    stripRunS (false, false) (natRepr n) = ((natRepr n).data, (false, false)) := by
  show stripRun (false, false) (natToDigits (n + 1) n) = _
  exact stripRun_natToDigits (n + 1) n

theorem stripRunS_intRepr (m : Int) :
    stripRunS (false, false) (intRepr m) = ((intRepr m).data, (false, false)) := by
  cases m with
  | ofNat n => exact stripRunS_natRepr n
  | negSucc n =>
    show stripRunS (false, false) ("-" ++ natRepr (n + 1)) = _
    have h := stripRunS_chain
      (show stripRunS (false, false) "-" = (['-'], (false, false)) from rfl)
      (stripRunS_natRepr (n + 1))
    rw [h]
    simp [String.data_append]
    rfl

theorem data_lbrace : ("\x7b" : String).data = ['{'] := rfl

theorem data_rbrace : ("\x7d" : String).data = ['}'] := rfl

theorem data_colon1 : (":" : String).data = [':'] := rfl

theorem data_comma1 : ("," : String).data = [','] := rfl

theorem data_lbrack : ("[" : String).data = ['['] := rfl

theorem data_rbrack : ("]" : String).data = [']'] := rfl

mutual
/-- Stripping the compact serialization yields exactly the
whitespace-free form, ending outside any string literal. -/
theorem stripC_run : ∀ v : J,
    stripRunS (false, false) (dumpsC v) = ((minifyJ v).data, (false, false))
  | .js s => stripRunS_escString s
  | .jb true => rfl
  | .jb false => rfl
  | .ji n => stripRunS_intRepr n
  | .jo .nil => rfl
  | .jo (.cons k v rest) => by
    show stripRunS (false, false)
      ("\x7b" ++ dumpsEntriesC (.cons k v rest) ++ "\x7d") = _
    have h := stripRunS_chain (stripRunS_chain
      (show stripRunS (false, false) "\x7b" = (['{'], (false, false)) from rfl)
      (stripEntriesC_run (.cons k v rest)))
      (show stripRunS (false, false) "\x7d" = (['}'], (false, false)) from rfl)
    rw [h]
    show _ = (("\x7b" ++ minifyEntries (.cons k v rest) ++ "\x7d").data,
      (false, false))
    simp [String.data_append, data_lbrace, data_rbrace]
  | .ja .nil => rfl
  | .ja (.cons v rest) => by
    show stripRunS (false, false)
      ("[" ++ dumpsItemsC (.cons v rest) ++ "]") = _
    have h := stripRunS_chain (stripRunS_chain
      (show stripRunS (false, false) "[" = (['['], (false, false)) from rfl)
      (stripItemsC_run (.cons v rest)))
      (show stripRunS (false, false) "]" = ([']'], (false, false)) from rfl)
    rw [h]
    show _ = (("[" ++ minifyItems (.cons v rest) ++ "]").data, (false, false))
    simp [String.data_append, data_lbrack, data_rbrack]
/-- Entry lists in compact mode strip to the whitespace-free entries. -/
theorem stripEntriesC_run : ∀ es : JEntries,
    stripRunS (false, false) (dumpsEntriesC es) =
      ((minifyEntries es).data, (false, false))
  | .nil => rfl
  | .cons k v .nil => by
    show stripRunS (false, false) (escString k ++ ": " ++ dumpsC v) = _
    have h := stripRunS_chain (stripRunS_chain (stripRunS_escString k)
      (show stripRunS (false, false) ": " = ([':'], (false, false)) from rfl))
      (stripC_run v)
    rw [h]
    show _ = ((escString k ++ ":" ++ minifyJ v).data, (false, false))
    simp [String.data_append, data_colon1]
  | .cons k v (.cons k' v' rest) => by
    show stripRunS (false, false)
      (escString k ++ ": " ++ dumpsC v ++ ", " ++
        dumpsEntriesC (.cons k' v' rest)) = _
    have h := stripRunS_chain (stripRunS_chain (stripRunS_chain
      (stripRunS_chain (stripRunS_escString k)
        (show stripRunS (false, false) ": " = ([':'], (false, false)) from rfl))
      (stripC_run v))
      (show stripRunS (false, false) ", " = ([','], (false, false)) from rfl))
      (stripEntriesC_run (.cons k' v' rest))
    rw [h]
    show _ = ((escString k ++ ":" ++ minifyJ v ++ "," ++
      minifyEntries (.cons k' v' rest)).data, (false, false))
    simp [String.data_append, data_colon1, data_comma1]
/-- Item lists in compact mode strip to the whitespace-free items. -/
theorem stripItemsC_run : ∀ items : JItems,
    stripRunS (false, false) (dumpsItemsC items) =
      ((minifyItems items).data, (false, false))
  | .nil => rfl
  | .cons v .nil => stripC_run v
  | .cons v (.cons v' rest) => by
    show stripRunS (false, false)
      (dumpsC v ++ ", " ++ dumpsItemsC (.cons v' rest)) = _
    have h := stripRunS_chain (stripRunS_chain (stripC_run v)
      (show stripRunS (false, false) ", " = ([','], (false, false)) from rfl))
      (stripItemsC_run (.cons v' rest))
    rw [h]
    show _ = ((minifyJ v ++ "," ++ minifyItems (.cons v' rest)).data,
      (false, false))
    simp [String.data_append, data_comma1]
end

mutual
/-- Stripping the indented serialization, at any width and depth, also
yields exactly the whitespace-free form. -/
theorem stripI_run : ∀ (n d : Nat) (v : J),
    stripRunS (false, false) (dumpsI n d v) = ((minifyJ v).data, (false, false))
  | _, _, .js s => stripRunS_escString s
  | _, _, .jb true => rfl
  | _, _, .jb false => rfl
  | _, _, .ji m => stripRunS_intRepr m
  | _, _, .jo .nil => rfl
  | n, d, .jo (.cons k v rest) => by
    show stripRunS (false, false)
      ("\x7b\n" ++ spaces (n * (d + 1)) ++
        dumpsEntriesI n (d + 1) (.cons k v rest) ++
        "\n" ++ spaces (n * d) ++ "\x7d") = _
    have h := stripRunS_chain (stripRunS_chain (stripRunS_chain
      (stripRunS_chain (stripRunS_chain
        (show stripRunS (false, false) "\x7b\n" = (['{'], (false, false)) from rfl)
        (stripRunS_spaces (n * (d + 1))))
      (stripEntriesI_run n (d + 1) (.cons k v rest)))
      (show stripRunS (false, false) "\n" = ([], (false, false)) from rfl))
      (stripRunS_spaces (n * d)))
      (show stripRunS (false, false) "\x7d" = (['}'], (false, false)) from rfl)
    rw [h]
    show _ = (("\x7b" ++ minifyEntries (.cons k v rest) ++ "\x7d").data,
      (false, false))
    simp [String.data_append, data_lbrace, data_rbrace]
  | _, _, .ja .nil => rfl
  | n, d, .ja (.cons v rest) => by
    show stripRunS (false, false)
      ("[\n" ++ spaces (n * (d + 1)) ++ dumpsItemsI n (d + 1) (.cons v rest) ++
        "\n" ++ spaces (n * d) ++ "]") = _
    have h := stripRunS_chain (stripRunS_chain (stripRunS_chain
      (stripRunS_chain (stripRunS_chain
        (show stripRunS (false, false) "[\n" = (['['], (false, false)) from rfl)
        (stripRunS_spaces (n * (d + 1))))
      (stripItemsI_run n (d + 1) (.cons v rest)))
      (show stripRunS (false, false) "\n" = ([], (false, false)) from rfl))
      (stripRunS_spaces (n * d)))
      (show stripRunS (false, false) "]" = ([']'], (false, false)) from rfl)
    rw [h]
    show _ = (("[" ++ minifyItems (.cons v rest) ++ "]").data, (false, false))
    simp [String.data_append, data_lbrack, data_rbrack]
/-- Entry lists in indented mode strip to the whitespace-free entries. -/
theorem stripEntriesI_run : ∀ (n d : Nat) (es : JEntries),
    stripRunS (false, false) (dumpsEntriesI n d es) =
      ((minifyEntries es).data, (false, false))
  | _, _, .nil => rfl
  | n, d, .cons k v .nil => by
    show stripRunS (false, false) (escString k ++ ": " ++ dumpsI n d v) = _
    have h := stripRunS_chain (stripRunS_chain (stripRunS_escString k)
      (show stripRunS (false, false) ": " = ([':'], (false, false)) from rfl))
      (stripI_run n d v)
    rw [h]
    show _ = ((escString k ++ ":" ++ minifyJ v).data, (false, false))
    simp [String.data_append, data_colon1]
  | n, d, .cons k v (.cons k' v' rest) => by
    show stripRunS (false, false)
      (escString k ++ ": " ++ dumpsI n d v ++ ",\n" ++ spaces (n * d) ++
        dumpsEntriesI n d (.cons k' v' rest)) = _
    have h := stripRunS_chain (stripRunS_chain (stripRunS_chain
      (stripRunS_chain (stripRunS_chain (stripRunS_escString k)
        (show stripRunS (false, false) ": " = ([':'], (false, false)) from rfl))
      (stripI_run n d v))
      (show stripRunS (false, false) ",\n" = ([','], (false, false)) from rfl))
      (stripRunS_spaces (n * d)))
      (stripEntriesI_run n d (.cons k' v' rest))
    rw [h]
    show _ = ((escString k ++ ":" ++ minifyJ v ++ "," ++
      minifyEntries (.cons k' v' rest)).data, (false, false))
    simp [String.data_append, data_colon1, data_comma1]
/-- Item lists in indented mode strip to the whitespace-free items. -/
theorem stripItemsI_run : ∀ (n d : Nat) (items : JItems),
    stripRunS (false, false) (dumpsItemsI n d items) =
      ((minifyItems items).data, (false, false))
  | _, _, .nil => rfl
  | n, d, .cons v .nil => stripI_run n d v
  | n, d, .cons v (.cons v' rest) => by
    show stripRunS (false, false)
      (dumpsI n d v ++ ",\n" ++ spaces (n * d) ++
        dumpsItemsI n d (.cons v' rest)) = _
    have h := stripRunS_chain (stripRunS_chain (stripRunS_chain
      (stripI_run n d v)
      (show stripRunS (false, false) ",\n" = ([','], (false, false)) from rfl))
      (stripRunS_spaces (n * d)))
      (stripItemsI_run n d (.cons v' rest))
    rw [h]
    show _ = ((minifyJ v ++ "," ++ minifyItems (.cons v' rest)).data,
      (false, false))
    simp [String.data_append, data_comma1]
end

/-- C9: for every instance and every requested indentation width, the
compact serialization (single space after each colon and comma, by the
compact separators of get_payload) and the indented serialization
(multi-line, no space after commas) strip — removing only whitespace
outside string literals — to one and the same whitespace-free token
sequence; hence the two texts differ only in whitespace, and the key
order and key set at every nesting level are identical. -/
theorem c9_whitespace_only (st : SchemaState) (o : Obj) (n : Nat) :
    stripWS (getPayloadJson st o none) = minifyJ (getPayloadPython st o)
    ∧ stripWS (getPayloadJson st o (some n)) = minifyJ (getPayloadPython st o)
    ∧ stripWS (getPayloadJson st o none) = stripWS (getPayloadJson st o (some n))
    ∧ getPayloadJson initState
        ⟨.fact, .cons "name" (.vStr "n") (.cons "value" (.vStr "v") .nil)⟩
        none = "\x7b\"name\": \"n\", \"value\": \"v\"\x7d"
    ∧ getPayloadJson initState
        ⟨.fact, .cons "name" (.vStr "n") (.cons "value" (.vStr "v") .nil)⟩
        (some 4) = "\x7b\n    \"name\": \"n\",\n    \"value\": \"v\"\n\x7d" := by
  have hc : stripWS (getPayloadJson st o none) =
      minifyJ (getPayloadPython st o) := by
    show String.mk
      (stripRunS (false, false) (dumpsC (getPayloadPython st o))).1 = _
    rw [stripC_run]
  have hi : stripWS (getPayloadJson st o (some n)) =
      minifyJ (getPayloadPython st o) := by
    show String.mk
      (stripRunS (false, false) (dumpsI n 0 (getPayloadPython st o))).1 = _
    rw [stripI_run]
  exact ⟨hc, hi, by rw [hc, hi], rfl, rfl⟩

end MSTeams
